import Mathlib

/-!
# Verification of the mezzanine configurator's perimeter accessory layout engine

Shallow embedding of the configurator's core (accessory data model, perimeter
occupancy calculator, auto-fit resolver, mutation operations, pricing area,
and the 3D viewer's perimeter walker) translated from the TypeScript source:
`src/components/ConfigurationPanel.tsx`, `src/utils/pricing.ts` and
`src/components/MezzanineViewer.tsx`.

JavaScript numbers are modelled as exact rationals (`ℚ`), `Math.floor` as
`Int.floor`, and the JS `||` default operator on optional numbers (which
treats both `undefined` and `0` as falsy) as `jsOr`.  Stair variant strings
are kept as `String` with the source's substring tests.  Functions that
either call `onConfigChange` with a new configuration or return early with
an alert are modelled as functions into `Option MezzanineConfig` (`none` =
the mutation was rejected and no new configuration was emitted).
-/

/-- JS `x || d` on an optional number: `undefined` and `0` are falsy. -/
def jsOr (o : Option ℚ) (d : ℚ) : ℚ :=
  match o with
  | none => d
  | some v => if v = 0 then d else v

/-- `pat` is a prefix of `cs` (on character lists, so the kernel can
evaluate it). -/
def charsPrefix : List Char → List Char → Bool
  | [], _ => true
  | _ :: _, [] => false
  | p :: ps, c :: cs => p = c && charsPrefix ps cs

/-- `pat` occurs as a contiguous run of `cs`. -/
def charsContains (pat : List Char) : List Char → Bool
  | [] => charsPrefix pat []
  | c :: cs => charsPrefix pat (c :: cs) || charsContains pat cs

/-- JS `String.prototype.includes`: `pat` occurs as a substring of `s`. -/
def hasSubstr (s pat : String) : Bool :=
  charsContains pat.data s.data

/-- `a.stairType?.includes('Vinkel')` (optional chaining: `none` is falsy). -/
def optVinkel (o : Option String) : Bool :=
  match o with
  | none => false
  | some s => hasSubstr s "Vinkel"

/-- `a.stairType?.includes('Corner stairs')` (used by the pricing module). -/
def optCornerStairs (o : Option String) : Bool :=
  match o with
  | none => false
  | some s => hasSubstr s "Corner stairs"

/-- The discriminant of the accessory union: `'stairs' | 'railings' | 'palletGate'`. -/
inductive AccessoryType where
  | stairs
  | railings
  | palletGate
  deriving DecidableEq, Repr

/-- `PalletGateWidth = '2000mm' | '2500mm' | '3000mm'` (closed string enum,
represented by its parsed millimetre value). -/
inductive PalletGateWidth where
  | w2000
  | w2500
  | w3000
  deriving DecidableEq, Repr

/-- `parseFloat` of the width string, in millimetres. -/
def PalletGateWidth.toMm : PalletGateWidth → ℚ
  | .w2000 => 2000
  | .w2500 => 2500
  | .w3000 => 3000

/-- The `Accessory` record from `src/types/index.ts`: one struct with
kind-specific optional fields. -/
structure Accessory where
  id : String
  type : AccessoryType
  quantity : ℕ
  stairType : Option String := none
  length : Option ℚ := none
  width : Option PalletGateWidth := none
  deriving DecidableEq, Repr

/-- The `MezzanineConfig` record: dimensions in millimetres, load class,
ordered accessory list. -/
structure MezzanineConfig where
  length : ℚ
  width : ℚ
  height : ℚ
  loadCapacity : ℕ
  accessories : List Accessory
  deriving DecidableEq, Repr

def isStairs (a : Accessory) : Bool := a.type = AccessoryType.stairs

def isRailings (a : Accessory) : Bool := a.type = AccessoryType.railings

def isPalletGate (a : Accessory) : Bool := a.type = AccessoryType.palletGate

/-- Repos platform length constant (`REPOS_LENGTH = 3.0` m). -/
def REPOS_LENGTH : ℚ := 3

/-- Repos platform depth constant (`REPOS_DEPTH = 1.4` m). -/
def REPOS_DEPTH : ℚ := 7/5

/-- `accessories.some(a => a.type === 'stairs' && a.stairType?.includes('Vinkel'))` -/
def hasVinkelStair (accessories : List Accessory) : Bool :=
  accessories.any (fun a => isStairs a && optVinkel a.stairType)

/-- `calculatePerimeter` from `ConfigurationPanel.tsx`: `2·(l+w)` in metres,
plus `2·REPOS_DEPTH + REPOS_LENGTH = 5.8` m when a Vinkel stair is present. -/
def calculatePerimeter (length width : ℚ) (accessories : List Accessory) : ℚ :=
  let base := 2 * ((length / 1000) + (width / 1000))
  if hasVinkelStair accessories then
    base + (2 * REPOS_DEPTH + REPOS_LENGTH)
  else
    base

/-- Per-stair occupancy: `quantity × 1.0` m, plus `REPOS_DEPTH` for a Vinkel
stair accessory. -/
def stairSpace (stair : Accessory) : ℚ :=
  (stair.quantity : ℚ) * 1 + (if optVinkel stair.stairType then REPOS_DEPTH else 0)

/-- `calculateStairsSpace` from `ConfigurationPanel.tsx`. -/
def calculateStairsSpace (accessories : List Accessory) : ℚ :=
  ((accessories.filter isStairs).map stairSpace).sum

/-- `parseFloat(gate.width || '2000mm') / 1000`, in metres. -/
def gateWidthM (gate : Accessory) : ℚ :=
  (gate.width.getD PalletGateWidth.w2000).toMm / 1000

/-- `calculatePalletGatesSpace` from `ConfigurationPanel.tsx`. -/
def calculatePalletGatesSpace (accessories : List Accessory) : ℚ :=
  ((accessories.filter isPalletGate).map (fun gate => (gate.quantity : ℚ) * gateWidthM gate)).sum

/-- Total consumed length of one railing accessory:
`railing.quantity * (railing.length || 0)`. -/
def railTotal (railing : Accessory) : ℚ :=
  (railing.quantity : ℚ) * jsOr railing.length 0

/-- `calculateTotalRailingLength` from `ConfigurationPanel.tsx`. -/
def calculateTotalRailingLength (accessories : List Accessory) : ℚ :=
  ((accessories.filter isRailings).map railTotal).sum

/-- `calculateAvailablePerimeter` from `ConfigurationPanel.tsx`:
`max(0, perimeter − stairsSpace − palletGatesSpace)`. -/
def calculateAvailablePerimeter (config : MezzanineConfig) : ℚ :=
  max 0 (calculatePerimeter config.length config.width config.accessories
          - calculateStairsSpace config.accessories
          - calculatePalletGatesSpace config.accessories)

/-- `accessories.findIndex(a => a.id === i) !== -1`. -/
def containsId (i : String) (accessories : List Accessory) : Bool :=
  accessories.any (fun a => a.id = i)

/-- `accessories.splice(accessories.findIndex(a => a.id === i), 1)`:
remove the first accessory whose id is `i`. -/
def removeById (i : String) : List Accessory → List Accessory
  | [] => []
  | a :: rest => if a.id = i then rest else a :: removeById i rest

/-- `accessories[accessories.findIndex(a => a.id === i)] = x`:
replace the first accessory whose id is `i` by `x`. -/
def setById (i : String) (x : Accessory) : List Accessory → List Accessory
  | [] => []
  | a :: rest => if a.id = i then x :: rest else a :: setById i x rest

/-- The in-place reduction of one railing in `autoAdjustRailingsForPerimeter`
(the `else` branch, lines 101-128): try shrinking the per-unit length first,
falling back to reducing the quantity, with floors of 1. -/
def shrinkRailing (railing : Accessory) (remainingToReduce : ℚ) : Accessory :=
  let length := jsOr railing.length 10
  let quantity := railing.quantity
  let currentLength := railTotal railing
  let newTotalLength := currentLength - remainingToReduce
  let newLength := newTotalLength / (quantity : ℚ)
  if 1 ≤ newLength then
    { railing with length := some ((Int.floor newLength : ℤ) : ℚ) }
  else
    let newQuantity : ℤ := max 1 (Int.floor (newTotalLength / length))
    let finalLength : ℤ := Int.floor (newTotalLength / (newQuantity : ℚ))
    { railing with
        quantity := newQuantity.toNat,
        length := some (max 1 (finalLength : ℚ)) }

/-- The backwards `for` loop of `autoAdjustRailingsForPerimeter`: `todo` is the
reversed snapshot of the railing accessories, `acc` the evolving
`adjustedAccessories` array, `rem` the `remainingToReduce` variable.  A railing
whose id is no longer found is skipped (`findIndex === -1  → continue`); one
whose whole consumed length fits in `rem` is removed; otherwise it is shrunk
in place and the loop stops (`remainingToReduce = 0`). -/
def adjustLoop : List Accessory → List Accessory → ℚ → List Accessory
  | [], acc, _ => acc
  | railing :: rest, acc, rem =>
    if rem ≤ 0 then acc
    else if containsId railing.id acc = false then adjustLoop rest acc rem
    else
      if railTotal railing ≤ rem then
        adjustLoop rest (removeById railing.id acc) (rem - railTotal railing)
      else
        adjustLoop rest (setById railing.id (shrinkRailing railing rem) acc) 0

/-- `autoAdjustRailingsForPerimeter` from `ConfigurationPanel.tsx`. -/
def autoAdjustRailingsForPerimeter (config : MezzanineConfig) : List Accessory :=
  let availablePerimeter := calculateAvailablePerimeter config
  let currentRailingLength := calculateTotalRailingLength config.accessories
  if currentRailingLength ≤ availablePerimeter then
    config.accessories
  else
    let excessLength := currentRailingLength - availablePerimeter
    adjustLoop ((config.accessories.filter isRailings).reverse)
      config.accessories excessLength

/-- One `Partial<Accessory>` patch as passed to `updateAccessory` by the UI
(`type` and `id` are never patched). -/
structure AccessoryUpdates where
  quantity : Option ℕ := none
  length : Option ℚ := none
  stairType : Option String := none
  width : Option PalletGateWidth := none

/-- `{ ...a, ...updates }`: fields present in the patch replace the
accessory's fields. -/
def applyUpdates (a : Accessory) (u : AccessoryUpdates) : Accessory :=
  { a with
      quantity := u.quantity.getD a.quantity,
      length := match u.length with | some v => some v | none => a.length,
      stairType := match u.stairType with | some s => some s | none => a.stairType,
      width := match u.width with | some w => some w | none => a.width }

/-- `updateAccessory` from `ConfigurationPanel.tsx` (lines 194-264), with
`none` for the early-return rejection paths and `some` for the configuration
passed to `onConfigChange`. -/
def updateAccessory (config : MezzanineConfig) (i : String) (u : AccessoryUpdates) :
    Option MezzanineConfig :=
  match config.accessories.find? (fun a => a.id = i) with
  | none => none
  | some accessory =>
    -- Vinkel exclusivity guard: only for a stair accessory with a stairType patch.
    let vinkelReject :=
      isStairs accessory &&
        (match u.stairType with
         | none => false
         | some s =>
            hasSubstr s "Vinkel" &&
              config.accessories.any
                (fun a => isStairs a && optVinkel a.stairType && !(a.id = i)))
    if vinkelReject then none
    else
      -- Railing perimeter guard.
      let railingReject :=
        isRailings accessory &&
          (let availablePerimeter := calculateAvailablePerimeter config
           let otherRailingsLength :=
             ((config.accessories.filter
                (fun a => isRailings a && !(a.id = i))).map railTotal).sum
           let newQuantity := u.quantity.getD accessory.quantity
           let newLength := u.length.getD (jsOr accessory.length 0)
           let newTotalForThis := (newQuantity : ℚ) * newLength
           decide (otherRailingsLength + newTotalForThis > availablePerimeter))
      if railingReject then none
      else
        let newAccessories :=
          config.accessories.map (fun a => if a.id = i then applyUpdates a u else a)
        if (isStairs accessory || isPalletGate accessory) && u.quantity.isSome then
          some { config with
                  accessories :=
                    autoAdjustRailingsForPerimeter
                      { config with accessories := newAccessories } }
        else
          some { config with accessories := newAccessories }

/-- The fresh accessory built by `addAccessory` (its id comes from
`Date.now()`, modelled as a parameter). -/
def newAccessory (ty : AccessoryType) (newId : String) : Accessory :=
  { id := newId
    type := ty
    quantity := 1
    stairType := if ty = AccessoryType.stairs then some "Straight 1m" else none
    length := if ty = AccessoryType.railings then some 10 else none
    width := if ty = AccessoryType.palletGate then some PalletGateWidth.w2000 else none }

/-- `addAccessory` from `ConfigurationPanel.tsx` (lines 144-185). -/
def addAccessory (config : MezzanineConfig) (ty : AccessoryType) (newId : String) :
    Option MezzanineConfig :=
  let reject :=
    (ty = AccessoryType.railings : Bool) &&
      decide (calculateTotalRailingLength config.accessories + 10 >
        calculateAvailablePerimeter config)
  if reject then none
  else
    let newAccessories := config.accessories ++ [newAccessory ty newId]
    if (ty = AccessoryType.stairs : Bool) || (ty = AccessoryType.palletGate : Bool) then
      some { config with
              accessories :=
                autoAdjustRailingsForPerimeter
                  { config with accessories := newAccessories } }
    else
      some { config with accessories := newAccessories }

/-- `removeAccessory` from `ConfigurationPanel.tsx`: unconditional filter. -/
def removeAccessory (config : MezzanineConfig) (i : String) : MezzanineConfig :=
  { config with accessories := config.accessories.filter (fun a => !(a.id = i)) }

/-- Repos platform floor area constant (`REPOS_AREA = 3.0 × 1.4 = 4.2` m²). -/
def REPOS_AREA : ℚ := REPOS_LENGTH * REPOS_DEPTH

/-- `calculateSquareMeters` from `src/utils/pricing.ts`: base floor area in m²,
plus `REPOS_AREA` when some stair accessory's `stairType` contains the
substring `'Corner stairs'`. -/
def calculateSquareMeters (length width : ℚ) (accessories : List Accessory) : ℚ :=
  let baseArea := (length * width) / 1000000
  if accessories.any (fun a => isStairs a && optCornerStairs a.stairType) then
    baseArea + REPOS_AREA
  else
    baseArea

/-! ## Perimeter walker (`MezzanineViewer.tsx`, `Railings` component)

The walker traverses the ordered edge list (Repos edges first when a Vinkel
stair is present), skipping reserved X-ranges on the front edge and emitting
railing chunks of at most 3 m.  Only the geometric data of an emitted chunk
is modelled: edge identity, centre position (x and z) and length; the
constant y coordinate and the mesh/post generation are rendering-only. -/

/-- Edge identity in the walker's perimeter path. -/
inductive EdgeId where
  | reposLeft
  | reposFront
  | front
  | right
  | back
  | left
  deriving DecidableEq, Repr

/-- One entry of the `perimeterSegments` array (x/z coordinates of its start
and end points, plus the cumulated distances). -/
structure Edge where
  startX : ℚ
  startZ : ℚ
  endX : ℚ
  endZ : ℚ
  edge : EdgeId
  edgeLength : ℚ
  edgeStartDist : ℚ
  deriving DecidableEq, Repr

/-- One emitted railing chunk (`posX`, `posZ` are the centre coordinates). -/
structure Placement where
  edge : EdgeId
  posX : ℚ
  posZ : ℚ
  len : ℚ
  deriving DecidableEq, Repr

/-- `getStairsXRanges`: each stair unit is 1 m wide, centred at
`(qIdx − (quantity−1)/2) · 2`. -/
def getStairsXRanges (quantity : ℕ) : List (ℚ × ℚ) :=
  (List.range quantity).map (fun qIdx =>
    let offsetX := ((qIdx : ℚ) - ((quantity : ℚ) - 1) / 2) * 2
    (offsetX - 1/2, offsetX + 1/2))

/-- Spacing between two consecutive pallet gates:
`Math.max(Math.max(prevWidth, gateWidth) + 1, 2)`. -/
def gateSpacing (prevWidth gateWidth : ℚ) : ℚ :=
  max (max prevWidth gateWidth + 1) 2

/-- First pass of `getPalletGatesXRanges`: the `totalSpan` accumulator. -/
def gatesSpan : List ℚ → ℚ
  | [] => 0
  | [w] => w
  | w1 :: w2 :: rest => w1 + gateSpacing w1 w2 + gatesSpan (w2 :: rest)

/-- Second pass of `getPalletGatesXRanges`: walk `currentX` forward, with the
previous width threaded for the spacing rule. -/
def gateRangesAux (currentX : ℚ) (prev : Option ℚ) : List ℚ → List (ℚ × ℚ)
  | [] => []
  | w :: rest =>
    let x0 := match prev with
      | none => currentX
      | some pw => currentX + gateSpacing pw w
    let c := x0 + w / 2
    (c - w / 2, c + w / 2) :: gateRangesAux (c + w / 2) (some w) rest

/-- `getPalletGatesXRanges` from the viewer (group centred at x = 0). -/
def getPalletGatesXRanges (widths : List ℚ) : List (ℚ × ℚ) :=
  match widths with
  | [] => []
  | _ => gateRangesAux (-(gatesSpan widths) / 2) none widths

/-- The `perimeterSegments` array (y coordinates omitted; with a Repos the
path is repos-left, repos-front, front remainder, right, back, left). -/
def mkPerimeterSegments (length width : ℚ) (hasRepos : Bool) : List Edge :=
  let reposZ := -width / 2 - REPOS_DEPTH / 2
  if hasRepos then
    let reposLeftX := -length / 2
    let reposFrontZ := -width / 2
    let reposOuterZ := reposZ - REPOS_DEPTH / 2
    let frontStartX := reposLeftX + REPOS_LENGTH
    let frontEndX := length / 2
    let frontLength := frontEndX - frontStartX
    [ { startX := reposLeftX, startZ := reposFrontZ, endX := reposLeftX, endZ := reposOuterZ,
        edge := EdgeId.reposLeft, edgeLength := REPOS_DEPTH, edgeStartDist := 0 },
      { startX := reposLeftX, startZ := reposOuterZ, endX := reposLeftX + REPOS_LENGTH,
        endZ := reposOuterZ,
        edge := EdgeId.reposFront, edgeLength := REPOS_LENGTH, edgeStartDist := REPOS_DEPTH },
      { startX := frontStartX, startZ := reposFrontZ, endX := frontEndX, endZ := reposFrontZ,
        edge := EdgeId.front, edgeLength := frontLength,
        edgeStartDist := REPOS_DEPTH + REPOS_LENGTH },
      { startX := length / 2, startZ := -width / 2, endX := length / 2, endZ := width / 2,
        edge := EdgeId.right, edgeLength := width,
        edgeStartDist := REPOS_DEPTH + REPOS_LENGTH + frontLength },
      { startX := length / 2, startZ := width / 2, endX := -length / 2, endZ := width / 2,
        edge := EdgeId.back, edgeLength := length,
        edgeStartDist := REPOS_DEPTH + REPOS_LENGTH + frontLength + width },
      { startX := -length / 2, startZ := width / 2, endX := -length / 2, endZ := -width / 2,
        edge := EdgeId.left, edgeLength := width,
        edgeStartDist := REPOS_DEPTH + REPOS_LENGTH + frontLength + width + length } ]
  else
    [ { startX := -length / 2, startZ := -width / 2, endX := length / 2, endZ := -width / 2,
        edge := EdgeId.front, edgeLength := length, edgeStartDist := 0 },
      { startX := length / 2, startZ := -width / 2, endX := length / 2, endZ := width / 2,
        edge := EdgeId.right, edgeLength := width, edgeStartDist := length },
      { startX := length / 2, startZ := width / 2, endX := -length / 2, endZ := width / 2,
        edge := EdgeId.back, edgeLength := length, edgeStartDist := length + width },
      { startX := -length / 2, startZ := width / 2, endX := -length / 2, endZ := -width / 2,
        edge := EdgeId.left, edgeLength := width, edgeStartDist := 2 * length + width } ]

/-- `perimeterSegments.findIndex(...)`: the first segment whose distance
window `[edgeStartDist, nextEdgeStart)` contains `d`, where `nextEdgeStart`
is the next segment's `edgeStartDist`, or the total `perimeter` for the last
segment. -/
def findEdge (perimeter d : ℚ) : List Edge → Option Edge
  | [] => none
  | [e] => if e.edgeStartDist ≤ d ∧ d < perimeter then some e else none
  | e :: e2 :: rest =>
    if e.edgeStartDist ≤ d ∧ d < e2.edgeStartDist then some e
    else findEdge perimeter d (e2 :: rest)

/-- The front-edge gap scan: the first reserved range (stairs first, then
gates) containing `x` (closed bounds), returning its `maxX`. -/
def findGap (x : ℚ) : List (ℚ × ℚ) → Option ℚ
  | [] => none
  | (mn, mx) :: rest => if mn ≤ x ∧ x ≤ mx then some mx else findGap x rest

/-- The front-edge truncation scan: the `minX` of the first reserved range
which the chunk `[startX, endX]` crosses into (`endX > minX && startX < minX`). -/
def findTrunc (startX endX : ℚ) : List (ℚ × ℚ) → Option ℚ
  | [] => none
  | (mn, _) :: rest => if endX > mn ∧ startX < mn then some mn else findTrunc startX endX rest

/-- Wrap to 0 upon reaching the total perimeter
(`if (currentDistance >= perimeter) currentDistance = 0`). -/
def wrapDist (perimeter d : ℚ) : ℚ :=
  if d ≥ perimeter then 0 else d

/-- The `while` loop of the `Railings` component (with Repos support):
`fuel` models the `iterationCount < maxIterations` bound, `d` the
`currentDistance` cursor, `rem` the `remainingLength`. -/
def walkAux (segs : List Edge) (perimeter : ℚ) (ranges : List (ℚ × ℚ))
    (hasRepos : Bool) : ℕ → ℚ → ℚ → List Placement
  | 0, _, _ => []
  | fuel + 1, d, rem =>
    if rem ≤ 1/100 then []
    else
      match findEdge perimeter d segs with
      | none => []
      | some edge =>
        let distanceAlongEdge := d - edge.edgeStartDist
        let remainingOnEdge := edge.edgeLength - distanceAlongEdge
        if edge.edge = EdgeId.reposFront ∧ hasRepos then
          -- skip the whole Repos front edge (reserved for the Vinkel stair)
          walkAux segs perimeter ranges hasRepos fuel
            (wrapDist perimeter (d + remainingOnEdge)) rem
        else
          let currentXPos := edge.startX +
            (edge.endX - edge.startX) * (distanceAlongEdge / edge.edgeLength)
          match (if edge.edge = EdgeId.front then findGap currentXPos ranges else none) with
          | some skipToX =>
            let skipToT := (skipToX - edge.startX) / (edge.endX - edge.startX)
            let skipToDistance := skipToT * edge.edgeLength
            let skipAmount := max (1/100) (skipToDistance - distanceAlongEdge)
            walkAux segs perimeter ranges hasRepos fuel
              (wrapDist perimeter (d + skipAmount)) rem
          | none =>
            let segmentLen0 := min (min rem remainingOnEdge) 3
            let segmentLen :=
              if edge.edge = EdgeId.front then
                let startXPos := currentXPos
                let endXPos := edge.startX + (edge.endX - edge.startX) *
                  ((distanceAlongEdge + segmentLen0) / edge.edgeLength)
                match findTrunc startXPos endXPos ranges with
                | some mn =>
                  let truncateT := (mn - edge.startX) / (edge.endX - edge.startX)
                  let truncateDistance := truncateT * edge.edgeLength
                  max (1/20) (truncateDistance - distanceAlongEdge)
                | none => segmentLen0
              else segmentLen0
            if segmentLen < 1/20 then
              walkAux segs perimeter ranges hasRepos fuel
                (wrapDist perimeter (d + 1/20)) rem
            else
              let t := (distanceAlongEdge + segmentLen / 2) / edge.edgeLength
              let posX := edge.startX + (edge.endX - edge.startX) * t
              let posZ := edge.startZ + (edge.endZ - edge.startZ) * t
              { edge := edge.edge, posX := posX, posZ := posZ, len := segmentLen } ::
                walkAux segs perimeter ranges hasRepos fuel
                  (wrapDist perimeter (d + segmentLen)) (rem - segmentLen)

/-- The `maxIterations = 1000` constant. -/
def maxIterations : ℕ := 1000

/-- The `Railings` component's placement computation for one railing
accessory: inputs in metres, plus the derived reserved ranges. -/
def railingsPlacements (length width : ℚ) (quantity : ℕ) (segmentLength : ℚ)
    (stairsQuantity : ℕ) (palletGatesWidths : List ℚ) (hasRepos : Bool) :
    List Placement :=
  let perimeter := 2 * (length + width) +
    (if hasRepos then REPOS_DEPTH + REPOS_LENGTH else 0)
  let totalRailingLength := (quantity : ℚ) * segmentLength
  if totalRailingLength ≤ 0 then []
  else
    let segs := mkPerimeterSegments length width hasRepos
    let ranges := getStairsXRanges stairsQuantity ++ getPalletGatesXRanges palletGatesWidths
    walkAux segs perimeter ranges hasRepos maxIterations 0
      (min totalRailingLength perimeter)

/-- The reserved-range list derived from a configuration (stairs first, then
pallet gates), as built in `MezzanineModel`. -/
def configRanges (config : MezzanineConfig) : List (ℚ × ℚ) :=
  let stairs := config.accessories.filter isStairs
  let palletGates := config.accessories.filter isPalletGate
  let totalStairsQuantity := (stairs.map (fun s => s.quantity)).sum
  let palletGatesWidths :=
    palletGates.flatMap (fun gate => List.replicate gate.quantity (gateWidthM gate))
  getStairsXRanges totalStairsQuantity ++ getPalletGatesXRanges palletGatesWidths

/-- `computeRailingPlacements`: all placements emitted for a configuration
(one walk per railing accessory, as in `MezzanineModel`). -/
def computeRailingPlacements (config : MezzanineConfig) : List Placement :=
  let length := config.length / 1000
  let width := config.width / 1000
  let stairs := config.accessories.filter isStairs
  let railings := config.accessories.filter isRailings
  let palletGates := config.accessories.filter isPalletGate
  let vinkel := hasVinkelStair config.accessories
  let totalStairsQuantity := (stairs.map (fun s => s.quantity)).sum
  let palletGatesWidths :=
    palletGates.flatMap (fun gate => List.replicate gate.quantity (gateWidthM gate))
  railings.flatMap (fun railing =>
    railingsPlacements length width railing.quantity (jsOr railing.length 10)
      totalStairsQuantity palletGatesWidths vinkel)
/-- The data-model invariants of §3 the claims rely on: accessory ids are
pairwise distinct, and every railing has `quantity ≥ 1` and a present
per-unit length of at least 1 m. -/
def validAccessories (l : List Accessory) : Prop :=
  (l.map Accessory.id).Nodup ∧
  ∀ a ∈ l, isRailings a = true → 1 ≤ a.quantity ∧ 1 ≤ jsOr a.length 0

instance : DecidablePred validAccessories := fun l =>
  inferInstanceAs (Decidable (_ ∧ _))


/-! ## Concrete configurations used in the claim theorems -/

/-- A corner (Vinkel) stair accessory, named as the application names its
corner-stair variants. -/
def vinkelStair : Accessory :=
  { id := "s", type := AccessoryType.stairs, quantity := 1,
      stairType := some "Vinkel 1.2m" }

/-- A 9.4 m × 4 m platform with a single Vinkel stair. -/
def vinkelCfg : MezzanineConfig :=
  { length := 9400, width := 4000, height := 3000, loadCapacity := 250,
      accessories := [vinkelStair] }

/-- A 10 m × 5 m platform with one 2000 mm pallet gate and 28 m of railing
(exactly the available perimeter). -/
def gateRailCfg : MezzanineConfig :=
  { length := 10000, width := 5000, height := 3000, loadCapacity := 250,
      accessories :=
        [{ id := "g", type := AccessoryType.palletGate, quantity := 1,
             width := some PalletGateWidth.w2000 },
         { id := "r", type := AccessoryType.railings, quantity := 1,
             length := some 28 }] }

/-- A 9.4 m × 4 m platform with one railing entry requesting 40 m
(the spec's worked example: available perimeter 26.8 m). -/
def rail40Cfg : MezzanineConfig :=
  { length := 9400, width := 4000, height := 3000, loadCapacity := 250,
      accessories :=
        [{ id := "r", type := AccessoryType.railings, quantity := 1,
             length := some 40 }] }

/-- The same platform with a second, most recently added 5 m railing. -/
def twoRailsCfg : MezzanineConfig :=
  { length := 9400, width := 4000, height := 3000, loadCapacity := 250,
      accessories :=
        [{ id := "r1", type := AccessoryType.railings, quantity := 1,
             length := some 40 },
         { id := "r2", type := AccessoryType.railings, quantity := 1,
             length := some 5 }] }

/-- A small 2 m × 2 m platform with two 3000 mm pallet gates and 4 × 10 m of
railing, forcing the quantity-reduction fallback of the auto-fit resolver. -/
def fallbackCfg : MezzanineConfig :=
  { length := 2000, width := 2000, height := 3000, loadCapacity := 250,
      accessories :=
        [{ id := "g", type := AccessoryType.palletGate, quantity := 2,
             width := some PalletGateWidth.w3000 },
         { id := "r", type := AccessoryType.railings, quantity := 4,
             length := some 10 }] }

/-- A 9.4 m × 4 m platform with a straight stair, a pallet gate and 20 m of
railing: the walker input of the overlap counterexample. -/
def walkerCfg : MezzanineConfig :=
  { length := 9400, width := 4000, height := 3000, loadCapacity := 250,
      accessories :=
        [{ id := "s", type := AccessoryType.stairs, quantity := 1,
             stairType := some "Straight 1m" },
         { id := "g", type := AccessoryType.palletGate, quantity := 1,
             width := some PalletGateWidth.w2000 },
         { id := "r", type := AccessoryType.railings, quantity := 1,
             length := some 20 }] }

/-- A configuration holding a Vinkel stair and a second, straight stair. -/
def twoStairsCfg : MezzanineConfig :=
  { length := 9400, width := 4000, height := 3000, loadCapacity := 250,
      accessories :=
        [vinkelStair,
         { id := "s2", type := AccessoryType.stairs, quantity := 1,
             stairType := some "Straight 1m" }] }

/-- A 10 m × 5 m platform with a single 10 m railing. -/
def oneRailCfg : MezzanineConfig :=
  { length := 10000, width := 5000, height := 3000, loadCapacity := 250,
      accessories :=
        [{ id := "r", type := AccessoryType.railings, quantity := 1,
             length := some 10 }] }

/-- An accessory-free 10 m × 5 m platform. -/
def emptyCfg : MezzanineConfig :=
  { length := 10000, width := 5000, height := 3000, loadCapacity := 250,
      accessories := [] }

/-- The configuration produced by adding a railing to `emptyCfg`. -/
def addedCfg : MezzanineConfig :=
  { length := 10000, width := 5000, height := 3000, loadCapacity := 250,
      accessories :=
        [{ id := "r2", type := AccessoryType.railings, quantity := 1,
             length := some 10 }] }

/-- `oneRailCfg` after updating the railing's length to 12 m. -/
def updatedCfg : MezzanineConfig :=
  { length := 10000, width := 5000, height := 3000, loadCapacity := 250,
      accessories :=
        [{ id := "r", type := AccessoryType.railings, quantity := 1,
             length := some 12 }] }

/-- `gateRailCfg` after widening its pallet gate to 3000 mm. -/
def wideGateRailCfg : MezzanineConfig :=
  { length := 10000, width := 5000, height := 3000, loadCapacity := 250,
      accessories :=
        [{ id := "g", type := AccessoryType.palletGate, quantity := 1,
             width := some PalletGateWidth.w3000 },
         { id := "r", type := AccessoryType.railings, quantity := 1,
             length := some 28 }] }

/-! ## List lemmas about the id-indexed operations -/

theorem removeById_sublist (i : String) :
    ∀ l : List Accessory, List.Sublist (removeById i l) l
  | [] => List.Sublist.refl []
  | a :: rest => by
      rw [removeById]
      split
      · exact List.sublist_cons_self a rest
      · exact List.Sublist.cons₂ a (removeById_sublist i rest)

theorem mem_removeById_ne {b : Accessory} {i : String} :
    ∀ {l : List Accessory}, b ∈ l → b.id ≠ i → b ∈ removeById i l
  | [], h, _ => absurd h (List.not_mem_nil b)
  | a :: rest, h, hne => by
      rw [removeById]
      rcases List.mem_cons.1 h with rfl | hmem
      · rw [if_neg hne]; exact List.mem_cons_self b _
      · split
        · exact hmem
        · exact List.mem_cons_of_mem a (mem_removeById_ne hmem hne)

theorem mem_of_mem_setById {b x : Accessory} {i : String} :
    ∀ {l : List Accessory}, b ∈ setById i x l → b = x ∨ b ∈ l
  | [], h => absurd h (List.not_mem_nil b)
  | a :: rest, h => by
      rw [setById] at h
      split at h
      · rcases List.mem_cons.1 h with rfl | hmem
        · exact Or.inl rfl
        · exact Or.inr (List.mem_cons_of_mem a hmem)
      · rcases List.mem_cons.1 h with rfl | hmem
        · exact Or.inr (List.mem_cons_self b rest)
        · rcases mem_of_mem_setById hmem with h | h
          · exact Or.inl h
          · exact Or.inr (List.mem_cons_of_mem a h)

theorem mem_setById_ne {b x : Accessory} {i : String} :
    ∀ {l : List Accessory}, b ∈ l → b.id ≠ i → b ∈ setById i x l
  | [], h, _ => absurd h (List.not_mem_nil b)
  | a :: rest, h, hne => by
      rw [setById]
      rcases List.mem_cons.1 h with rfl | hmem
      · rw [if_neg hne]; exact List.mem_cons_self b _
      · split
        · exact List.mem_cons_of_mem x hmem
        · exact List.mem_cons_of_mem a (mem_setById_ne hmem hne)

theorem map_id_setById {x : Accessory} {i : String} (hx : x.id = i) :
    ∀ l : List Accessory, (setById i x l).map Accessory.id = l.map Accessory.id
  | [] => rfl
  | a :: rest => by
      rw [setById]
      split
      · rename_i ha
        simp [hx, ha]
      · simp [map_id_setById hx rest]

theorem nodup_removeById {i : String} {l : List Accessory}
    (h : (l.map Accessory.id).Nodup) : ((removeById i l).map Accessory.id).Nodup :=
  List.Nodup.sublist (List.Sublist.map Accessory.id (removeById_sublist i l)) h

theorem containsId_of_mem {r : Accessory} {l : List Accessory} (h : r ∈ l) :
    containsId r.id l = true := by
  unfold containsId
  rw [List.any_eq_true]
  exact ⟨r, h, by simp⟩

/-- With pairwise-distinct ids, an element of `removeById r.id l` never has
id `r.id` (the unique carrier of that id was removed). -/
theorem removeById_id_ne {r b : Accessory} :
    ∀ {l : List Accessory}, (l.map Accessory.id).Nodup → r ∈ l →
      b ∈ removeById r.id l → b.id ≠ r.id
  | [], _, hr, _ => absurd hr (List.not_mem_nil r)
  | a :: rest, hnd, hr, hb => by
      rw [removeById] at hb
      rw [List.map_cons, List.nodup_cons] at hnd
      by_cases ha : a.id = r.id
      · rw [if_pos ha] at hb
        intro hbid
        exact hnd.1 (ha ▸ hbid ▸ List.mem_map_of_mem Accessory.id hb)
      · rw [if_neg ha] at hb
        have hr' : r ∈ rest := by
          rcases List.mem_cons.1 hr with rfl | h
          · exact absurd rfl ha
          · exact h
        rcases List.mem_cons.1 hb with rfl | hb'
        · exact ha
        · exact removeById_id_ne hnd.2 hr' hb'

/-- With pairwise-distinct ids, the unique element carrying a given id: any
member whose id matches `r.id` is `r` itself. -/
theorem eq_of_mem_of_id_eq {r b : Accessory} :
    ∀ {l : List Accessory}, (l.map Accessory.id).Nodup → r ∈ l → b ∈ l →
      b.id = r.id → b = r
  | [], _, hr, _, _ => absurd hr (List.not_mem_nil r)
  | a :: rest, hnd, hr, hb, hid => by
      rw [List.map_cons, List.nodup_cons] at hnd
      rcases List.mem_cons.1 hr with rfl | hr' <;> rcases List.mem_cons.1 hb with rfl | hb'
      · rfl
      · exfalso
        apply hnd.1
        rw [← hid]
        exact List.mem_map_of_mem Accessory.id hb'
      · exfalso
        apply hnd.1
        rw [hid]
        exact List.mem_map_of_mem Accessory.id hr'
      · exact eq_of_mem_of_id_eq hnd.2 hr' hb' hid

theorem setById_self {x : Accessory} :
    ∀ {l : List Accessory}, (l.map Accessory.id).Nodup → x ∈ l →
      setById x.id x l = l
  | [], _, hx => absurd hx (List.not_mem_nil x)
  | a :: rest, hnd, hx => by
      rw [setById]
      by_cases ha : a.id = x.id
      · rw [if_pos ha]
        have : a = x := eq_of_mem_of_id_eq hnd hx (List.mem_cons_self a rest) ha
        rw [this]
      · rw [if_neg ha]
        have hx' : x ∈ rest := by
          rcases List.mem_cons.1 hx with rfl | h
          · exact absurd rfl ha
          · exact h
        rw [List.map_cons, List.nodup_cons] at hnd
        rw [setById_self hnd.2 hx']


/-! ## Railing-sum lemmas -/

theorem rs_cons (a : Accessory) (l : List Accessory) :
    calculateTotalRailingLength (a :: l) =
      (if isRailings a = true then railTotal a else 0) + calculateTotalRailingLength l := by
  unfold calculateTotalRailingLength
  rw [List.filter_cons]
  split <;> simp

theorem rs_removeById {r : Accessory} (hra : isRailings r = true) :
    ∀ {l : List Accessory}, (l.map Accessory.id).Nodup → r ∈ l →
      calculateTotalRailingLength (removeById r.id l) =
        calculateTotalRailingLength l - railTotal r
  | [], _, hr => absurd hr (List.not_mem_nil r)
  | a :: rest, hnd, hr => by
      rw [removeById]
      by_cases ha : a.id = r.id
      · rw [if_pos ha]
        have haeq : a = r := eq_of_mem_of_id_eq hnd hr (List.mem_cons_self a rest) ha
        rw [haeq, rs_cons, if_pos hra]
        ring
      · rw [if_neg ha]
        have hr' : r ∈ rest := by
          rcases List.mem_cons.1 hr with rfl | h
          · exact absurd rfl ha
          · exact h
        rw [List.map_cons, List.nodup_cons] at hnd
        rw [rs_cons, rs_cons, rs_removeById hra hnd.2 hr']
        ring

theorem rs_setById {r x : Accessory} (hra : isRailings r = true)
    (hxa : isRailings x = true) :
    ∀ {l : List Accessory}, (l.map Accessory.id).Nodup → r ∈ l →
      calculateTotalRailingLength (setById r.id x l) =
        calculateTotalRailingLength l - railTotal r + railTotal x
  | [], _, hr => absurd hr (List.not_mem_nil r)
  | a :: rest, hnd, hr => by
      rw [setById]
      by_cases ha : a.id = r.id
      · rw [if_pos ha]
        have haeq : a = r := eq_of_mem_of_id_eq hnd hr (List.mem_cons_self a rest) ha
        rw [haeq, rs_cons, rs_cons, if_pos hra, if_pos hxa]
        ring
      · rw [if_neg ha]
        have hr' : r ∈ rest := by
          rcases List.mem_cons.1 hr with rfl | h
          · exact absurd rfl ha
          · exact h
        rw [List.map_cons, List.nodup_cons] at hnd
        rw [rs_cons, rs_cons, rs_setById hra hxa hnd.2 hr']
        ring

/-- `shrinkRailing` does not touch the identity or kind-specific fields other
than `quantity`/`length`. -/
theorem shrinkRailing_fields (r : Accessory) (rem : ℚ) :
    (shrinkRailing r rem).id = r.id ∧ (shrinkRailing r rem).type = r.type ∧
    (shrinkRailing r rem).stairType = r.stairType ∧
    (shrinkRailing r rem).width = r.width := by
  simp only [shrinkRailing]
  split <;> simp

/-- A railing with a present length field of at least 1 m. -/
theorem jsOr_pos_elim {o : Option ℚ} (h : 1 ≤ jsOr o 0) :
    ∃ w, o = some w ∧ 1 ≤ w ∧ jsOr o 0 = w ∧ jsOr o 10 = w := by
  match o with
  | none => simp [jsOr] at h; linarith
  | some w =>
    by_cases hw : w = 0
    · simp [jsOr, hw] at h; linarith
    · exact ⟨w, rfl, by simpa [jsOr, hw] using h, by simp [jsOr, hw], by simp [jsOr, hw]⟩

/-- Core arithmetic contract of the in-place railing reduction, for a valid
railing (`quantity ≥ 1`, per-unit length ≥ 1 m) with a positive remaining
excess smaller than the railing's consumed length.  The reduced railing is
again valid, and either absorbs the excess completely (total new length
≤ `railTotal r − rem`) or — when less than 1 m would remain — is clamped by
the 1 m floor to exactly one unit of 1 m. -/
theorem jsOr_some_ne (v : ℚ) (h : v ≠ 0) : jsOr (some v) 0 = v := by
  simp [jsOr, h]

theorem jsOr_some_one_le (v : ℚ) (h : 1 ≤ v) : jsOr (some v) 0 = v :=
  jsOr_some_ne v (by linarith)

/-- Core arithmetic contract of the in-place railing reduction, for a valid
railing (`quantity ≥ 1`, per-unit length ≥ 1 m) with a positive remaining
excess smaller than the railing's consumed length.  The reduced railing is
again valid, and either absorbs the excess completely (total new length
≤ `railTotal r − rem`) or — when less than 1 m would remain — is clamped by
the 1 m floor to exactly one unit of 1 m. -/
theorem shrinkRailing_bound (r : Accessory) (rem : ℚ)
    (hq : 1 ≤ r.quantity) (hl : 1 ≤ jsOr r.length 0)
    (h0 : 0 < rem) (hlt : rem < railTotal r) :
    (1 ≤ (shrinkRailing r rem).quantity ∧ 1 ≤ jsOr (shrinkRailing r rem).length 0) ∧
    ((1 ≤ railTotal r - rem ∧ railTotal (shrinkRailing r rem) ≤ railTotal r - rem) ∨
     (railTotal r - rem < 1 ∧
        shrinkRailing r rem = { r with quantity := 1, length := some 1 })) := by
  obtain ⟨w, hw, hw1, hw0, hw10⟩ := jsOr_pos_elim hl
  have hqQ : (1 : ℚ) ≤ (r.quantity : ℚ) := by exact_mod_cast hq
  have hqpos : (0 : ℚ) < (r.quantity : ℚ) := lt_of_lt_of_le one_pos hqQ
  have hT0 : 0 < railTotal r - rem := by linarith
  simp only [shrinkRailing, hw10]
  set T := railTotal r - rem with hTdef
  split
  · -- keep the quantity, shrink the per-unit length
    rename_i hge
    set F := Int.floor (T / (r.quantity : ℚ)) with hFdef
    have hF1 : (1 : ℤ) ≤ F := by
      rw [hFdef, Int.le_floor]
      exact_mod_cast hge
    have hFQ : (1 : ℚ) ≤ (F : ℚ) := by exact_mod_cast hF1
    have hFne : (F : ℚ) ≠ 0 := by linarith
    have hT1 : (1 : ℚ) ≤ T := by
      calc (1 : ℚ) ≤ (r.quantity : ℚ) := hqQ
        _ = (r.quantity : ℚ) * 1 := (mul_one _).symm
        _ ≤ (r.quantity : ℚ) * (T / (r.quantity : ℚ)) :=
            mul_le_mul_of_nonneg_left hge (le_of_lt hqpos)
        _ = T := mul_div_cancel₀ _ (ne_of_gt hqpos)
    refine ⟨⟨hq, ?_⟩, Or.inl ⟨hT1, ?_⟩⟩
    · show 1 ≤ jsOr (some (F : ℚ)) 0
      rw [jsOr_some_ne _ hFne]
      exact hFQ
    · show (r.quantity : ℚ) * jsOr (some (F : ℚ)) 0 ≤ T
      rw [jsOr_some_ne _ hFne]
      calc (r.quantity : ℚ) * (F : ℚ)
          ≤ (r.quantity : ℚ) * (T / (r.quantity : ℚ)) :=
            mul_le_mul_of_nonneg_left (hFdef ▸ Int.floor_le _) (le_of_lt hqpos)
        _ = T := mul_div_cancel₀ _ (ne_of_gt hqpos)
  · -- the per-unit floor would be violated: reduce the quantity as well
    rename_i hngeb
    have hwpos : (0 : ℚ) < w := lt_of_lt_of_le one_pos hw1
    set F := Int.floor (T / w) with hFdef
    set N : ℤ := max 1 F with hNdef
    set G := Int.floor (T / (N : ℚ)) with hGdef
    have hN1 : (1 : ℤ) ≤ N := le_max_left _ _
    have hNQ1 : (1 : ℚ) ≤ (N : ℚ) := by exact_mod_cast hN1
    have hNpos : (0 : ℚ) < (N : ℚ) := by linarith
    by_cases hT1 : 1 ≤ T
    · -- at least 1 m remains: the recomputed quantity/length absorb it
      have hFQle : (F : ℚ) ≤ T :=
        le_trans (hFdef ▸ Int.floor_le _) (div_le_self (le_of_lt hT0) hw1)
      have hNle : (N : ℚ) ≤ T := by
        rw [hNdef]
        push_cast
        exact max_le hT1 hFQle
      have hG1 : (1 : ℤ) ≤ G := by
        rw [hGdef, Int.le_floor]
        rw [le_div_iff₀ hNpos]
        push_cast
        linarith
      have hGQ1 : (1 : ℚ) ≤ (G : ℚ) := by exact_mod_cast hG1
      have hmx : max (1 : ℚ) (G : ℚ) = (G : ℚ) := max_eq_right hGQ1
      have htn : ((N.toNat : ℕ) : ℚ) = (N : ℚ) := by
        exact_mod_cast Int.toNat_of_nonneg (by omega)
      refine ⟨⟨?_, ?_⟩, Or.inl ⟨hT1, ?_⟩⟩
      · show 1 ≤ N.toNat
        omega
      · show 1 ≤ jsOr (some (max 1 (G : ℚ))) 0
        rw [jsOr_some_one_le _ (le_max_left _ _)]
        exact le_max_left _ _
      · show ((N.toNat : ℕ) : ℚ) * jsOr (some (max 1 (G : ℚ))) 0 ≤ T
        rw [jsOr_some_one_le _ (le_max_left _ _), hmx, htn]
        calc (N : ℚ) * (G : ℚ)
            ≤ (N : ℚ) * (T / (N : ℚ)) :=
              mul_le_mul_of_nonneg_left (hGdef ▸ Int.floor_le _) (le_of_lt hNpos)
          _ = T := mul_div_cancel₀ _ (ne_of_gt hNpos)
    · -- less than 1 m remains: clamp to one unit of 1 m
      push_neg at hT1
      have hF0 : F = 0 := by
        rw [hFdef, Int.floor_eq_zero_iff]
        exact Set.mem_Ico.mpr
          ⟨le_of_lt (div_pos hT0 hwpos),
           lt_of_le_of_lt (div_le_self (le_of_lt hT0) hw1) hT1⟩
      have hN1' : N = 1 := by
        rw [hNdef, hF0]
        decide
      have hG0 : G = 0 := by
        rw [hGdef, hN1']
        push_cast
        rw [div_one, Int.floor_eq_zero_iff]
        exact Set.mem_Ico.mpr ⟨le_of_lt hT0, hT1⟩
      refine ⟨⟨?_, ?_⟩, Or.inr ⟨hT1, ?_⟩⟩
      · show 1 ≤ N.toNat
        omega
      · show 1 ≤ jsOr (some (max 1 (G : ℚ))) 0
        rw [hG0]
        norm_num [jsOr]
      · show ({ r with quantity := N.toNat, length := some (max 1 (G : ℚ)) } : Accessory) =
          { r with quantity := 1, length := some 1 }
        rw [hN1', hG0]
        norm_num

/-! ## Auto-fit loop lemmas -/

theorem adjustLoop_nonpos {rem : ℚ} (h : rem ≤ 0) :
    ∀ (todo acc : List Accessory), adjustLoop todo acc rem = acc
  | [], _ => rfl
  | _ :: _, acc => by
      rw [adjustLoop, if_pos h]

theorem adjustLoop_map_nodup :
    ∀ (todo acc : List Accessory) (rem : ℚ),
      (acc.map Accessory.id).Nodup →
      ((adjustLoop todo acc rem).map Accessory.id).Nodup
  | [], acc, rem, hnd => hnd
  | r :: rest, acc, rem, hnd => by
      rw [adjustLoop]
      split
      · exact hnd
      · split
        · exact adjustLoop_map_nodup rest acc rem hnd
        · split
          · exact adjustLoop_map_nodup rest _ _ (nodup_removeById hnd)
          · refine adjustLoop_map_nodup rest _ _ ?_
            rw [map_id_setById (shrinkRailing_fields r _).1]
            exact hnd

theorem filter_removeById {r : Accessory} :
    ∀ (l L : List Accessory), (l.map Accessory.id).Nodup →
      l.filter isRailings = L ++ [r] →
      (removeById r.id l).filter isRailings = L
  | [], L, _, hf => by simp at hf
  | a :: t, L, hnd, hf => by
      have hndc := hnd
      rw [List.map_cons, List.nodup_cons] at hndc
      have hrfil : r ∈ (a :: t).filter isRailings := by rw [hf]; simp
      have hrmem : r ∈ a :: t := List.mem_of_mem_filter hrfil
      rw [removeById]
      by_cases ha : a.id = r.id
      · have haeq : a = r := eq_of_mem_of_id_eq hnd hrmem (List.mem_cons_self a t) ha
        rw [if_pos ha]
        subst haeq
        have harail : isRailings a = true := (List.mem_filter.1 hrfil).2
        have hant : a ∉ t := fun hmem => hndc.1 (List.mem_map_of_mem Accessory.id hmem)
        rw [List.filter_cons, if_pos harail] at hf
        cases L with
        | nil =>
          simpa using hf
        | cons b L' =>
          rw [List.cons_append] at hf
          simp only [List.cons.injEq] at hf
          exfalso
          apply hant
          apply List.mem_of_mem_filter (p := isRailings)
          rw [hf.2]
          simp
      · rw [if_neg ha]
        have hrt : r ∈ t := by
          rcases List.mem_cons.1 hrmem with rfl | h
          · exact absurd rfl ha
          · exact h
        rw [List.filter_cons] at hf
        rw [List.filter_cons]
        by_cases hra : isRailings a = true
        · rw [if_pos hra] at hf
          rw [if_pos hra]
          cases L with
          | nil =>
            simp only [List.nil_append, List.cons.injEq] at hf
            exact absurd (by rw [hf.1]) ha
          | cons b L' =>
            rw [List.cons_append] at hf
            simp only [List.cons.injEq] at hf
            rw [hf.1, filter_removeById t L' hndc.2 hf.2]
        · rw [if_neg hra] at hf
          rw [if_neg hra]
          exact filter_removeById t L hndc.2 hf

theorem filter_setById {r x : Accessory} (hxrail : isRailings x = true) :
    ∀ (l L : List Accessory), (l.map Accessory.id).Nodup →
      l.filter isRailings = L ++ [r] →
      (setById r.id x l).filter isRailings = L ++ [x]
  | [], L, _, hf => by simp at hf
  | a :: t, L, hnd, hf => by
      have hndc := hnd
      rw [List.map_cons, List.nodup_cons] at hndc
      have hrfil : r ∈ (a :: t).filter isRailings := by rw [hf]; simp
      have hrmem : r ∈ a :: t := List.mem_of_mem_filter hrfil
      rw [setById]
      by_cases ha : a.id = r.id
      · have haeq : a = r := eq_of_mem_of_id_eq hnd hrmem (List.mem_cons_self a t) ha
        rw [if_pos ha]
        subst haeq
        have harail : isRailings a = true := (List.mem_filter.1 hrfil).2
        have hant : a ∉ t := fun hmem => hndc.1 (List.mem_map_of_mem Accessory.id hmem)
        rw [List.filter_cons, if_pos harail] at hf
        rw [List.filter_cons, if_pos hxrail]
        cases L with
        | nil =>
          have : t.filter isRailings = [] := by simpa using hf
          rw [this]
          rfl
        | cons b L' =>
          rw [List.cons_append] at hf
          simp only [List.cons.injEq] at hf
          exfalso
          apply hant
          apply List.mem_of_mem_filter (p := isRailings)
          rw [hf.2]
          simp
      · rw [if_neg ha]
        have hrt : r ∈ t := by
          rcases List.mem_cons.1 hrmem with rfl | h
          · exact absurd rfl ha
          · exact h
        rw [List.filter_cons] at hf
        rw [List.filter_cons]
        by_cases hra : isRailings a = true
        · rw [if_pos hra] at hf
          rw [if_pos hra]
          cases L with
          | nil =>
            simp only [List.nil_append, List.cons.injEq] at hf
            exact absurd (by rw [hf.1]) ha
          | cons b L' =>
            rw [List.cons_append] at hf
            simp only [List.cons.injEq] at hf
            rw [hf.1, List.cons_append]
            rw [filter_setById hxrail t L' hndc.2 hf.2]
        · rw [if_neg hra] at hf
          rw [if_neg hra]
          exact filter_setById hxrail t L hndc.2 hf

/-- Central contract of the reduction loop, for valid data (pairwise-distinct
ids; railings with `quantity ≥ 1` and present per-unit length ≥ 1), when
`todo` is the reversed list of the railing accessories of `acc` and the
excess `rem` is positive but at most the total railing length.  Either the
excess is fully absorbed (new total ≤ old total − excess), or the 1 m-floor
clamp fired: the last railing of the result is exactly one unit of 1 m and
the total overshoots the exact budget by strictly less than 1 m. -/
theorem adjustLoop_main :
    ∀ (todo acc : List Accessory) (rem : ℚ),
      (acc.map Accessory.id).Nodup →
      (∀ a ∈ acc, isRailings a = true → 1 ≤ a.quantity ∧ 1 ≤ jsOr a.length 0) →
      acc.filter isRailings = todo.reverse →
      0 < rem → rem ≤ calculateTotalRailingLength acc →
      calculateTotalRailingLength (adjustLoop todo acc rem) ≤
        calculateTotalRailingLength acc - rem
      ∨ (∃ L x, (adjustLoop todo acc rem).filter isRailings = L ++ [x]
           ∧ x.quantity = 1 ∧ x.length = some 1 ∧ isRailings x = true
           ∧ calculateTotalRailingLength (adjustLoop todo acc rem) <
               calculateTotalRailingLength acc - rem + 1)
  | [], acc, rem, _, _, hf, h0, hub => by
      exfalso
      have hz : calculateTotalRailingLength acc = 0 := by
        unfold calculateTotalRailingLength
        rw [hf]
        simp
      rw [hz] at hub
      linarith
  | r :: rest, acc, rem, hnd, hg, hf, h0, hub => by
      have hfr : acc.filter isRailings = rest.reverse ++ [r] := by
        rw [hf, List.reverse_cons]
      have hrfil : r ∈ acc.filter isRailings := by rw [hfr]; simp
      have hrmem : r ∈ acc := List.mem_of_mem_filter hrfil
      have hrrail : isRailings r = true := (List.mem_filter.1 hrfil).2
      obtain ⟨hq, hl⟩ := hg r hrmem hrrail
      have hqQ : (1 : ℚ) ≤ (r.quantity : ℚ) := by exact_mod_cast hq
      have h1rt : 1 ≤ railTotal r := by
        rw [railTotal]
        nlinarith
      rw [adjustLoop, if_neg (not_le.2 h0),
        if_neg (by simp [containsId_of_mem hrmem])]
      by_cases hcl : railTotal r ≤ rem
      · -- the railing is removed whole
        rw [if_pos hcl]
        have hrs : calculateTotalRailingLength (removeById r.id acc) =
            calculateTotalRailingLength acc - railTotal r :=
          rs_removeById hrrail hnd hrmem
        have hnd' := nodup_removeById (i := r.id) hnd
        have hg' : ∀ a ∈ removeById r.id acc, isRailings a = true →
            1 ≤ a.quantity ∧ 1 ≤ jsOr a.length 0 :=
          fun a ha har => hg a ((removeById_sublist r.id acc).subset ha) har
        have hf' : (removeById r.id acc).filter isRailings = rest.reverse :=
          filter_removeById acc rest.reverse hnd hfr
        by_cases hrem' : 0 < rem - railTotal r
        · have hub' : rem - railTotal r ≤
              calculateTotalRailingLength (removeById r.id acc) := by
            rw [hrs]; linarith
          rcases adjustLoop_main rest (removeById r.id acc) (rem - railTotal r)
              hnd' hg' hf' hrem' hub' with hle | ⟨L, x, hfx, hx1, hx2, hx3, hbd⟩
          · left
            rw [hrs] at hle
            linarith
          · right
            exact ⟨L, x, hfx, hx1, hx2, hx3, by rw [hrs] at hbd; linarith⟩
        · have hzero : rem - railTotal r ≤ 0 := not_lt.1 hrem'
          rw [adjustLoop_nonpos hzero]
          left
          rw [hrs]
          linarith
      · -- the railing is shrunk in place and the loop stops
        rw [if_neg hcl]
        have hlt : rem < railTotal r := lt_of_not_le hcl
        obtain ⟨⟨hxq, hxl⟩, hdisj⟩ := shrinkRailing_bound r rem hq hl h0 hlt
        have hxrail : isRailings (shrinkRailing r rem) = true := by
          have ht := (shrinkRailing_fields r rem).2.1
          unfold isRailings at hrrail ⊢
          rw [ht]
          exact hrrail
        have hrs : calculateTotalRailingLength (setById r.id (shrinkRailing r rem) acc) =
            calculateTotalRailingLength acc - railTotal r +
              railTotal (shrinkRailing r rem) :=
          rs_setById hrrail hxrail hnd hrmem
        rw [adjustLoop_nonpos (le_refl 0)]
        rcases hdisj with ⟨_, habs⟩ | ⟨hT1, hxeq⟩
        · left
          rw [hrs]
          linarith
        · right
          refine ⟨rest.reverse, shrinkRailing r rem,
            filter_setById hxrail acc rest.reverse hnd hfr, ?_, ?_, hxrail, ?_⟩
          · rw [hxeq]
          · rw [hxeq]
          · have hone : railTotal (shrinkRailing r rem) = 1 := by
              rw [hxeq]
              norm_num [railTotal, jsOr]
            rw [hrs, hone]
            linarith

/-- The loop never produces a railing with quantity < 1 or per-unit
length < 1 (for valid railing inputs). -/
theorem adjustLoop_good :
    ∀ (todo acc : List Accessory) (rem : ℚ),
      (∀ a ∈ acc, isRailings a = true → 1 ≤ a.quantity ∧ 1 ≤ jsOr a.length 0) →
      (∀ r ∈ todo, isRailings r = true ∧ 1 ≤ r.quantity ∧ 1 ≤ jsOr r.length 0) →
      ∀ a ∈ adjustLoop todo acc rem, isRailings a = true →
        1 ≤ a.quantity ∧ 1 ≤ jsOr a.length 0
  | [], acc, rem, hg, _ => hg
  | r :: rest, acc, rem, hg, ht => by
      rw [adjustLoop]
      split
      · exact hg
      · split
        · exact adjustLoop_good rest acc rem hg
            (fun a ha => ht a (List.mem_cons_of_mem r ha))
        · split
          · exact adjustLoop_good rest _ _
              (fun a ha har => hg a ((removeById_sublist r.id acc).subset ha) har)
              (fun a ha => ht a (List.mem_cons_of_mem r ha))
          · rw [adjustLoop_nonpos (le_refl 0)]
            rename_i hpos hfound hcl
            obtain ⟨hrrail, hq, hl⟩ := ht r (List.mem_cons_self r rest)
            obtain ⟨hxgood, _⟩ := shrinkRailing_bound r rem hq hl
              (lt_of_not_le hpos) (lt_of_not_le hcl)
            intro a ha har
            rcases mem_of_mem_setById ha with rfl | hmem
            · exact hxgood
            · exact hg a hmem har

theorem filterp_removeById {p : Accessory → Bool}
    (hp : ∀ a, isRailings a = true → p a = false) {r : Accessory}
    (hrrail : isRailings r = true) :
    ∀ {l : List Accessory}, (l.map Accessory.id).Nodup → r ∈ l →
      (removeById r.id l).filter p = l.filter p
  | [], _, hr => absurd hr (List.not_mem_nil r)
  | a :: t, hnd, hr => by
      rw [removeById]
      by_cases ha : a.id = r.id
      · have haeq : a = r := eq_of_mem_of_id_eq hnd hr (List.mem_cons_self a t) ha
        rw [if_pos ha, haeq, List.filter_cons, if_neg (by simp [hp r hrrail])]
      · rw [if_neg ha]
        have hr' : r ∈ t := by
          rcases List.mem_cons.1 hr with rfl | h
          · exact absurd rfl ha
          · exact h
        rw [List.map_cons, List.nodup_cons] at hnd
        rw [List.filter_cons, List.filter_cons,
          filterp_removeById hp hrrail hnd.2 hr']

theorem filterp_setById {p : Accessory → Bool}
    (hp : ∀ a, isRailings a = true → p a = false) {r x : Accessory}
    (hrrail : isRailings r = true) (hxrail : isRailings x = true) :
    ∀ {l : List Accessory}, (l.map Accessory.id).Nodup → r ∈ l →
      (setById r.id x l).filter p = l.filter p
  | [], _, hr => absurd hr (List.not_mem_nil r)
  | a :: t, hnd, hr => by
      rw [setById]
      by_cases ha : a.id = r.id
      · have haeq : a = r := eq_of_mem_of_id_eq hnd hr (List.mem_cons_self a t) ha
        rw [if_pos ha, haeq, List.filter_cons, List.filter_cons,
          if_neg (by simp [hp x hxrail]), if_neg (by simp [hp r hrrail])]
      · rw [if_neg ha]
        have hr' : r ∈ t := by
          rcases List.mem_cons.1 hr with rfl | h
          · exact absurd rfl ha
          · exact h
        rw [List.map_cons, List.nodup_cons] at hnd
        rw [List.filter_cons, List.filter_cons,
          filterp_setById hp hrrail hxrail hnd.2 hr']

/-- The loop leaves every non-railing accessory (and its position among
non-railing accessories) untouched: any filter that excludes railings is
invariant. -/
theorem adjustLoop_filter_disjoint {p : Accessory → Bool}
    (hp : ∀ a, isRailings a = true → p a = false) :
    ∀ (todo acc : List Accessory) (rem : ℚ),
      (acc.map Accessory.id).Nodup →
      (∀ r ∈ todo, r ∈ acc ∧ isRailings r = true) →
      (todo.map Accessory.id).Nodup →
      (adjustLoop todo acc rem).filter p = acc.filter p
  | [], _, _, _, _, _ => rfl
  | r :: rest, acc, rem, hnd, hmem, htd => by
      obtain ⟨hrmem, hrrail⟩ := hmem r (List.mem_cons_self r rest)
      rw [List.map_cons, List.nodup_cons] at htd
      have hmem' : ∀ a ∈ rest, a.id ≠ r.id := by
        intro a ha heq
        exact htd.1 (heq ▸ List.mem_map_of_mem Accessory.id ha)
      rw [adjustLoop]
      split
      · rfl
      · split
        · exact adjustLoop_filter_disjoint hp rest acc rem hnd
            (fun a ha => hmem a (List.mem_cons_of_mem r ha)) htd.2
        · split
          · rw [adjustLoop_filter_disjoint hp rest _ _ (nodup_removeById hnd)
              (fun a ha => ⟨mem_removeById_ne (hmem a (List.mem_cons_of_mem r ha)).1
                (hmem' a ha), (hmem a (List.mem_cons_of_mem r ha)).2⟩) htd.2]
            exact filterp_removeById hp hrrail hnd hrmem
          · rw [adjustLoop_nonpos (le_refl 0)]
            have hxrail : isRailings (shrinkRailing r rem) = true := by
              have ht := (shrinkRailing_fields r rem).2.1
              unfold isRailings at hrrail ⊢
              rw [ht]
              exact hrrail
            exact filterp_setById hp hrrail hxrail hnd hrmem

theorem setById_removeById_sublist (j i : String) (x : Accessory) (hne : j ≠ i) :
    ∀ l : List Accessory,
      List.Sublist (setById j x (removeById i l)) (setById j x l)
  | [] => List.Sublist.refl []
  | a :: t => by
      rw [removeById]
      by_cases hai : a.id = i
      · rw [if_pos hai]
        conv_rhs => rw [setById]
        rw [if_neg (by rw [hai]; exact fun h => hne h.symm)]
        exact List.sublist_cons_self a _
      · rw [if_neg hai, setById, setById]
        by_cases haj : a.id = j
        · rw [if_pos haj, if_pos haj]
          exact List.Sublist.cons₂ x (removeById_sublist i t)
        · rw [if_neg haj, if_neg haj]
          exact List.Sublist.cons₂ a (setById_removeById_sublist j i x hne t)

/-- Frame property of the loop: the result is a sublist (same relative
order, only whole entries dropped) of the original list with at most one
railing replaced in place by another railing with the same id. -/
theorem adjustLoop_frame :
    ∀ (todo acc : List Accessory) (rem : ℚ),
      (acc.map Accessory.id).Nodup →
      (∀ r ∈ todo, r ∈ acc ∧ isRailings r = true) →
      (todo.map Accessory.id).Nodup →
      ∃ acc1, List.Sublist (adjustLoop todo acc rem) acc1 ∧
        (acc1 = acc ∨ ∃ r x, r ∈ acc ∧ isRailings r = true ∧ isRailings x = true ∧
          x.id = r.id ∧ acc1 = setById r.id x acc)
  | [], acc, rem, _, _, _ => ⟨acc, List.Sublist.refl acc, Or.inl rfl⟩
  | r :: rest, acc, rem, hnd, hmem, htd => by
      obtain ⟨hrmem, hrrail⟩ := hmem r (List.mem_cons_self r rest)
      rw [List.map_cons, List.nodup_cons] at htd
      have hmem' : ∀ a ∈ rest, a.id ≠ r.id := by
        intro a ha heq
        exact htd.1 (heq ▸ List.mem_map_of_mem Accessory.id ha)
      rw [adjustLoop]
      split
      · exact ⟨acc, List.Sublist.refl acc, Or.inl rfl⟩
      · split
        · exact adjustLoop_frame rest acc rem hnd
            (fun a ha => hmem a (List.mem_cons_of_mem r ha)) htd.2
        · split
          · obtain ⟨acc1, hsub, hdisj⟩ := adjustLoop_frame rest _
              (rem - railTotal r) (nodup_removeById hnd)
              (fun a ha => ⟨mem_removeById_ne (hmem a (List.mem_cons_of_mem r ha)).1
                (hmem' a ha), (hmem a (List.mem_cons_of_mem r ha)).2⟩) htd.2
            rcases hdisj with rfl | ⟨r2, x, hr2mem, hr2rail, hxrail, hxid, rfl⟩
            · exact ⟨acc, hsub.trans (removeById_sublist r.id acc), Or.inl rfl⟩
            · have hr2acc : r2 ∈ acc := (removeById_sublist r.id acc).subset hr2mem
              have hr2ne : r2.id ≠ r.id := removeById_id_ne hnd hrmem hr2mem
              exact ⟨setById r2.id x acc,
                hsub.trans (setById_removeById_sublist r2.id r.id x hr2ne acc),
                Or.inr ⟨r2, x, hr2acc, hr2rail, hxrail, hxid, rfl⟩⟩
          · rw [adjustLoop_nonpos (le_refl 0)]
            have hxrail : isRailings (shrinkRailing r rem) = true := by
              have ht := (shrinkRailing_fields r rem).2.1
              unfold isRailings at hrrail ⊢
              rw [ht]
              exact hrrail
            exact ⟨setById r.id (shrinkRailing r rem) acc, List.Sublist.refl _,
              Or.inr ⟨r, shrinkRailing r rem, hrmem, hrrail, hxrail,
                (shrinkRailing_fields r rem).1, rfl⟩⟩

/-! ## Auto-fit at the configuration level -/

theorem avail_nonneg (cfg : MezzanineConfig) :
    0 ≤ calculateAvailablePerimeter cfg :=
  le_max_left 0 _

theorem todo_filter_rev (acc : List Accessory) :
    acc.filter isRailings = ((acc.filter isRailings).reverse).reverse :=
  (List.reverse_reverse _).symm

theorem todo_nodup {acc : List Accessory} (hnd : (acc.map Accessory.id).Nodup) :
    (((acc.filter isRailings).reverse).map Accessory.id).Nodup := by
  rw [List.map_reverse, List.nodup_reverse]
  exact List.Nodup.sublist (List.Sublist.map Accessory.id (List.filter_sublist acc)) hnd

theorem todo_mem {acc : List Accessory} {r : Accessory}
    (hr : r ∈ (acc.filter isRailings).reverse) :
    r ∈ acc ∧ isRailings r = true := by
  rw [List.mem_reverse] at hr
  exact ⟨List.mem_of_mem_filter hr, (List.mem_filter.1 hr).2⟩

/-- Main auto-fit contract: for valid data, after `autoAdjustRailingsForPerimeter`
the total railing length either satisfies the invariant exactly, or the
1 m-floor clamp fired — the last railing of the result is one unit of 1 m
and the total exceeds the available perimeter by strictly less than 1 m. -/
theorem autoAdjust_main (cfg : MezzanineConfig)
    (hnd : (cfg.accessories.map Accessory.id).Nodup)
    (hg : ∀ a ∈ cfg.accessories, isRailings a = true →
      1 ≤ a.quantity ∧ 1 ≤ jsOr a.length 0) :
    calculateTotalRailingLength (autoAdjustRailingsForPerimeter cfg) ≤
      calculateAvailablePerimeter cfg ∨
    (∃ L x, (autoAdjustRailingsForPerimeter cfg).filter isRailings = L ++ [x] ∧
       x.quantity = 1 ∧ x.length = some 1 ∧ isRailings x = true ∧
       calculateTotalRailingLength (autoAdjustRailingsForPerimeter cfg) <
         calculateAvailablePerimeter cfg + 1) := by
  simp only [autoAdjustRailingsForPerimeter]
  split
  · rename_i h
    exact Or.inl h
  · rename_i h
    push_neg at h
    have h0 : 0 < calculateTotalRailingLength cfg.accessories -
        calculateAvailablePerimeter cfg := by linarith
    have hub : calculateTotalRailingLength cfg.accessories -
        calculateAvailablePerimeter cfg ≤
        calculateTotalRailingLength cfg.accessories := by
      have := avail_nonneg cfg
      linarith
    rcases adjustLoop_main ((cfg.accessories.filter isRailings).reverse)
        cfg.accessories _ hnd hg (todo_filter_rev cfg.accessories) h0 hub with
      hle | ⟨L, x, hc, h1, h2, h3, hbd⟩
    · left
      linarith
    · right
      exact ⟨L, x, hc, h1, h2, h3, by linarith⟩

theorem autoAdjust_nodup (cfg : MezzanineConfig)
    (hnd : (cfg.accessories.map Accessory.id).Nodup) :
    ((autoAdjustRailingsForPerimeter cfg).map Accessory.id).Nodup := by
  simp only [autoAdjustRailingsForPerimeter]
  split
  · exact hnd
  · exact adjustLoop_map_nodup _ _ _ hnd

theorem autoAdjust_filter_disjoint {p : Accessory → Bool}
    (hp : ∀ a, isRailings a = true → p a = false) (cfg : MezzanineConfig)
    (hnd : (cfg.accessories.map Accessory.id).Nodup) :
    (autoAdjustRailingsForPerimeter cfg).filter p = cfg.accessories.filter p := by
  simp only [autoAdjustRailingsForPerimeter]
  split
  · rfl
  · exact adjustLoop_filter_disjoint hp _ _ _ hnd (fun r hr => todo_mem hr)
      (todo_nodup hnd)

theorem autoAdjust_good (cfg : MezzanineConfig)
    (hg : ∀ a ∈ cfg.accessories, isRailings a = true →
      1 ≤ a.quantity ∧ 1 ≤ jsOr a.length 0) :
    ∀ a ∈ autoAdjustRailingsForPerimeter cfg, isRailings a = true →
      1 ≤ a.quantity ∧ 1 ≤ jsOr a.length 0 := by
  simp only [autoAdjustRailingsForPerimeter]
  split
  · exact hg
  · exact adjustLoop_good _ _ _ hg
      (fun r hr => ⟨(todo_mem hr).2, hg r (todo_mem hr).1 (todo_mem hr).2⟩)

theorem autoAdjust_frame (cfg : MezzanineConfig)
    (hnd : (cfg.accessories.map Accessory.id).Nodup) :
    ∃ acc1, List.Sublist (autoAdjustRailingsForPerimeter cfg) acc1 ∧
      (acc1 = cfg.accessories ∨ ∃ r x, r ∈ cfg.accessories ∧
        isRailings r = true ∧ isRailings x = true ∧ x.id = r.id ∧
        acc1 = setById r.id x cfg.accessories) := by
  simp only [autoAdjustRailingsForPerimeter]
  split
  · exact ⟨cfg.accessories, List.Sublist.refl _, Or.inl rfl⟩
  · exact adjustLoop_frame _ _ _ hnd (fun r hr => todo_mem hr) (todo_nodup hnd)

/-! ## Available-perimeter congruence -/

theorem railings_not_stairs : ∀ a : Accessory, isRailings a = true →
    isStairs a = false := by
  intro a h
  unfold isRailings at h
  unfold isStairs
  simp only [decide_eq_true_eq] at h
  simp [h]

theorem railings_not_palletGate : ∀ a : Accessory, isRailings a = true →
    isPalletGate a = false := by
  intro a h
  unfold isRailings at h
  unfold isPalletGate
  simp only [decide_eq_true_eq] at h
  simp [h]

theorem railings_not_notRailings : ∀ a : Accessory, isRailings a = true →
    (!(isRailings a)) = false := by
  intro a h
  rw [h]
  rfl

theorem hasVinkel_eq_filter (l : List Accessory) :
    hasVinkelStair l = (l.filter isStairs).any (fun a => optVinkel a.stairType) := by
  induction l with
  | nil => rfl
  | cons a t ih =>
    rw [hasVinkelStair, List.any_cons, List.filter_cons]
    by_cases h : isStairs a = true
    · rw [if_pos h, List.any_cons, h]
      rw [hasVinkelStair] at ih
      rw [ih]
      simp
    · rw [if_neg h]
      rw [hasVinkelStair] at ih
      rw [ih]
      have hfa : isStairs a = false := Bool.eq_false_iff.2 (fun hc => h hc)
      rw [hfa]
      simp

/-- The three occupancy inputs of `calculateAvailablePerimeter` only depend
on the stair sublist and the pallet-gate sublist of the accessory list. -/
theorem avail_congr (cfg : MezzanineConfig) (acc : List Accessory)
    (hst : acc.filter isStairs = cfg.accessories.filter isStairs)
    (hpg : acc.filter isPalletGate = cfg.accessories.filter isPalletGate) :
    calculateAvailablePerimeter { cfg with accessories := acc } =
      calculateAvailablePerimeter cfg := by
  simp only [calculateAvailablePerimeter, calculatePerimeter,
    calculateStairsSpace, calculatePalletGatesSpace]
  rw [hasVinkel_eq_filter, hasVinkel_eq_filter]
  show max 0 (_ - _ - _) = max 0 (_ - _ - _)
  rw [hst, hpg]

theorem autoAdjust_avail (cfg : MezzanineConfig)
    (hnd : (cfg.accessories.map Accessory.id).Nodup) :
    calculateAvailablePerimeter
        { cfg with accessories := autoAdjustRailingsForPerimeter cfg } =
      calculateAvailablePerimeter cfg :=
  avail_congr cfg _ (autoAdjust_filter_disjoint railings_not_stairs cfg hnd)
    (autoAdjust_filter_disjoint railings_not_palletGate cfg hnd)

/-- Idempotence of the auto-fit resolver under the §3 data-model invariants. -/
theorem autoAdjust_idem (cfg : MezzanineConfig)
    (hnd : (cfg.accessories.map Accessory.id).Nodup)
    (hg : ∀ a ∈ cfg.accessories, isRailings a = true →
      1 ≤ a.quantity ∧ 1 ≤ jsOr a.length 0) :
    autoAdjustRailingsForPerimeter
        { cfg with accessories := autoAdjustRailingsForPerimeter cfg } =
      autoAdjustRailingsForPerimeter cfg := by
  have hmain := autoAdjust_main cfg hnd hg
  have havail := autoAdjust_avail cfg hnd
  have hndout := autoAdjust_nodup cfg hnd
  set out := autoAdjustRailingsForPerimeter cfg with hout
  by_cases hfits : calculateTotalRailingLength out ≤
      calculateAvailablePerimeter { cfg with accessories := out }
  · simp only [autoAdjustRailingsForPerimeter]
    rw [if_pos hfits]
  · push_neg at hfits
    rcases hmain with hle | ⟨L, x, hc, hx1, hx2, hx3, hbd⟩
    · rw [havail] at hfits
      exact absurd hle (not_le.2 hfits)
    · have hxmem : x ∈ out := List.mem_of_mem_filter (l := out) (by rw [hc]; simp)
      have hclx : railTotal x = 1 := by
        rw [railTotal, hx1, hx2]
        norm_num [jsOr]
      have he2pos : 0 < calculateTotalRailingLength out -
          calculateAvailablePerimeter { cfg with accessories := out } := by
        linarith
      have he2lt : calculateTotalRailingLength out -
          calculateAvailablePerimeter { cfg with accessories := out } < 1 := by
        rw [havail]
        linarith
      simp only [autoAdjustRailingsForPerimeter]
      rw [if_neg (not_le.2 hfits)]
      have htodo : (out.filter isRailings).reverse = x :: L.reverse := by
        rw [hc, List.reverse_append]
        simp
      rw [htodo, adjustLoop, if_neg (not_le.2 he2pos),
        if_neg (by simp [containsId_of_mem hxmem]),
        if_neg (by rw [hclx]; exact not_le.2 he2lt)]
      obtain ⟨_, hdisj⟩ := shrinkRailing_bound x
        (calculateTotalRailingLength out -
          calculateAvailablePerimeter { cfg with accessories := out })
        (by rw [hx1]) (by rw [hx2]; norm_num [jsOr]) he2pos
        (by rw [hclx]; exact he2lt)
      rcases hdisj with ⟨h1T, _⟩ | ⟨_, hxeq⟩
      · rw [hclx] at h1T
        linarith
      · have hxx : shrinkRailing x
            (calculateTotalRailingLength out -
              calculateAvailablePerimeter { cfg with accessories := out }) = x := by
          rw [hxeq, ← hx1, ← hx2]
        rw [hxx, setById_self hndout hxmem, adjustLoop_nonpos (le_refl 0)]

/-! ## Mutation lemmas (`updateAccessory` / `addAccessory`) -/

theorem applyUpdates_type (a : Accessory) (u : AccessoryUpdates) :
    (applyUpdates a u).type = a.type := rfl

theorem railTotal_applyUpdates (a : Accessory) (u : AccessoryUpdates) :
    railTotal (applyUpdates a u) =
      ((u.quantity.getD a.quantity : ℕ) : ℚ) * u.length.getD (jsOr a.length 0) := by
  unfold railTotal applyUpdates
  cases hu : u.length with
  | none => rfl
  | some v =>
    by_cases hv : v = 0 <;> simp [jsOr, hv]

theorem map_update_noop {i : String} {u : AccessoryUpdates} :
    ∀ {t : List Accessory}, (∀ x ∈ t, x.id ≠ i) →
      t.map (fun x => if x.id = i then applyUpdates x u else x) = t
  | [], _ => rfl
  | b :: t, h => by
      rw [List.map_cons, if_neg (h b (List.mem_cons_self b t)),
        map_update_noop (fun x hx => h x (List.mem_cons_of_mem b hx))]

theorem filter_other_noop {i : String} :
    ∀ {t : List Accessory}, (∀ x ∈ t, x.id ≠ i) →
      t.filter (fun x => isRailings x && !(x.id = i)) = t.filter isRailings
  | [], _ => rfl
  | b :: t, h => by
      rw [List.filter_cons, List.filter_cons]
      have hb : (!(decide (b.id = i))) = true := by
        simp [h b (List.mem_cons_self b t)]
      rw [filter_other_noop (fun x hx => h x (List.mem_cons_of_mem b hx))]
      by_cases hrb : isRailings b = true
      · rw [if_pos (by simp [hrb, hb]), if_pos hrb]
      · rw [if_neg (by simp [hrb]), if_neg hrb]

theorem no_other_id {i : String} {a : Accessory} {l : List Accessory}
    (hnd : (l.map Accessory.id).Nodup) (ha : a ∈ l) (hai : a.id = i) :
    ∀ x ∈ l, x ≠ a → x.id ≠ i := by
  intro x hx hxa hxi
  exact hxa (eq_of_mem_of_id_eq hnd ha hx (hxi.trans hai.symm))

/-- Total railing length after a railing update: the untouched railings plus
the patched one. -/
theorem rs_map_update {i : String} {u : AccessoryUpdates} {a : Accessory}
    (hra : isRailings a = true) (hai : a.id = i) :
    ∀ {l : List Accessory}, (l.map Accessory.id).Nodup → a ∈ l →
      calculateTotalRailingLength
          (l.map (fun x => if x.id = i then applyUpdates x u else x)) =
        ((l.filter (fun x => isRailings x && !(x.id = i))).map railTotal).sum +
          railTotal (applyUpdates a u)
  | [], _, ha => absurd ha (List.not_mem_nil a)
  | b :: t, hnd, ha => by
      have hndc := hnd
      rw [List.map_cons, List.nodup_cons] at hndc
      by_cases hb : b.id = i
      · have hba : b = a :=
          eq_of_mem_of_id_eq hnd ha (List.mem_cons_self b t) (hb.trans hai.symm)
        subst hba
        have hnone : ∀ x ∈ t, x.id ≠ i := by
          intro x hx hxi
          exact hndc.1 ((hxi.trans hb.symm).symm ▸ List.mem_map_of_mem Accessory.id hx)
        rw [List.map_cons, if_pos hb, map_update_noop hnone, rs_cons,
          if_pos (by unfold isRailings at hra ⊢; rw [applyUpdates_type]; exact hra)]
        rw [List.filter_cons, if_neg (by simp [hb]), filter_other_noop hnone]
        rw [add_comm]
        rfl
      · have hat : a ∈ t := by
          rcases List.mem_cons.1 ha with rfl | h
          · exact absurd hai hb
          · exact h
        rw [List.map_cons, if_neg hb, rs_cons, List.filter_cons]
        rw [rs_map_update hra hai hndc.2 hat]
        by_cases hrb : isRailings b = true
        · rw [if_pos hrb, if_pos (by simp [hrb, hb])]
          simp only [List.map_cons, List.sum_cons]
          ring
        · rw [if_neg hrb, if_neg (by simp [hrb])]
          ring

/-- A railing update does not change the stair or pallet-gate sublists. -/
theorem filterp_map_update {p : Accessory → Bool}
    (hp : ∀ x, isRailings x = true → p x = false) {i : String}
    {u : AccessoryUpdates} {a : Accessory}
    (hra : isRailings a = true) (hai : a.id = i) :
    ∀ {l : List Accessory}, (l.map Accessory.id).Nodup → a ∈ l →
      (l.map (fun x => if x.id = i then applyUpdates x u else x)).filter p =
        l.filter p
  | [], _, ha => absurd ha (List.not_mem_nil a)
  | b :: t, hnd, ha => by
      have hndc := hnd
      rw [List.map_cons, List.nodup_cons] at hndc
      by_cases hb : b.id = i
      · have hba : b = a :=
          eq_of_mem_of_id_eq hnd ha (List.mem_cons_self b t) (hb.trans hai.symm)
        subst hba
        have hnone : ∀ x ∈ t, x.id ≠ i := by
          intro x hx hxi
          exact hndc.1 ((hxi.trans hb.symm).symm ▸ List.mem_map_of_mem Accessory.id hx)
        have hpu : p (applyUpdates b u) = false := by
          apply hp
          unfold isRailings at hra ⊢
          rw [applyUpdates_type]
          exact hra
        rw [List.map_cons, if_pos hb, map_update_noop hnone, List.filter_cons,
          List.filter_cons, if_neg (by simp [hpu]), if_neg (by simp [hp b hra])]
      · have hat : a ∈ t := by
          rcases List.mem_cons.1 ha with rfl | h
          · exact absurd hai hb
          · exact h
        rw [List.map_cons, if_neg hb, List.filter_cons, List.filter_cons,
          filterp_map_update hp hra hai hndc.2 hat]

/-! ## Walker lemmas -/

theorem findGap_none (x : ℚ) :
    ∀ ranges : List (ℚ × ℚ), findGap x ranges = none ↔
      ∀ mn mx : ℚ, (mn, mx) ∈ ranges → ¬(mn ≤ x ∧ x ≤ mx)
  | [] => by simp [findGap]
  | (mn0, mx0) :: rest => by
      rw [findGap]
      split
      · rename_i hin
        simp only [reduceCtorEq, false_iff, not_forall]
        push_neg
        exact ⟨mn0, mx0, List.mem_cons_self _ rest, hin⟩
      · rename_i hout
        rw [findGap_none x rest]
        constructor
        · intro h mn mx hmem
          rcases List.mem_cons.1 hmem with heq | hmem'
          · rw [Prod.mk.injEq] at heq
            rw [heq.1, heq.2]
            exact hout
          · exact h mn mx hmem'
        · intro h mn mx hmem
          exact h mn mx (List.mem_cons_of_mem _ hmem)

/-- On the front edge (of either perimeter path), a segment selected by
`findIndex` satisfies `endX − startX = edgeLength`, and the cursor lies in
the edge's half-open distance window. -/
theorem findEdge_front_spec (L W per d : ℚ) (hr : Bool) (e : Edge)
    (hfind : findEdge per d (mkPerimeterSegments L W hr) = some e)
    (hfront : e.edge = EdgeId.front) :
    e.endX - e.startX = e.edgeLength ∧ e.edgeStartDist ≤ d ∧
      d - e.edgeStartDist < e.edgeLength := by
  cases hr
  · simp only [mkPerimeterSegments, Bool.false_eq_true, if_false] at hfind
    simp only [findEdge] at hfind
    split_ifs at hfind with h1 h2 h3 h4
    · injection hfind with he
      subst he
      refine ⟨by ring, h1.1, ?_⟩
      have hb := h1.2
      simp only at hb ⊢
      linarith
    · injection hfind with he
      subst he
      simp at hfront
    · injection hfind with he
      subst he
      simp at hfront
    · injection hfind with he
      subst he
      simp at hfront
  · simp only [mkPerimeterSegments, if_true] at hfind
    simp only [findEdge] at hfind
    split_ifs at hfind with h1 h2 h3 h4 h5 h6
    · injection hfind with he
      subst he
      simp at hfront
    · injection hfind with he
      subst he
      simp at hfront
    · injection hfind with he
      subst he
      refine ⟨by ring, h3.1, ?_⟩
      have hb := h3.2
      simp only at hb ⊢
      linarith
    · injection hfind with he
      subst he
      simp at hfront
    · injection hfind with he
      subst he
      simp at hfront
    · injection hfind with he
      subst he
      simp at hfront

/-- Algebra of the emitted chunk's left endpoint: it equals the cursor's
x-position at the start of the chunk, independently of the chunk length. -/
theorem left_endpoint_eq (startX endX eL dA s : ℚ)
    (hXL : endX - startX = eL) (heL : eL ≠ 0) :
    startX + (endX - startX) * ((dA + s / 2) / eL) - s / 2 =
      startX + (endX - startX) * (dA / eL) := by
  rw [hXL]
  field_simp
  ring

/-- Every placement the walker emits on the front edge starts at a cursor
position that passed the reserved-range test: its left endpoint is outside
every (closed) reserved range. -/
theorem walkAux_front_clear (L W per : ℚ) (ranges : List (ℚ × ℚ)) (hr : Bool) :
    ∀ (fuel : ℕ) (d rem : ℚ) (p : Placement),
      p ∈ walkAux (mkPerimeterSegments L W hr) per ranges hr fuel d rem →
      p.edge = EdgeId.front →
      findGap (p.posX - p.len / 2) ranges = none
  | 0, _, _, p, hp, _ => absurd hp (List.not_mem_nil p)
  | fuel + 1, d, rem, p, hp, hfront => by
      simp only [walkAux] at hp
      split at hp
      · exact absurd hp (List.not_mem_nil p)
      · split at hp
        · exact absurd hp (List.not_mem_nil p)
        · rename_i edge hedge
          split at hp
          · exact walkAux_front_clear L W per ranges hr fuel _ _ p hp hfront
          · split at hp
            · -- cursor inside a reserved range: the walker skips past it
              exact walkAux_front_clear L W per ranges hr fuel _ _ p hp hfront
            · -- cursor clear of every range
              rename_i hgap0
              by_cases hfe : edge.edge = EdgeId.front
              · simp only [if_pos hfe] at hgap0 hp
                split at hp
                · exact walkAux_front_clear L W per ranges hr fuel _ _ p hp hfront
                · rcases List.mem_cons.1 hp with rfl | hmem
                  · dsimp only
                    obtain ⟨hXL, hlo, hhi⟩ :=
                      findEdge_front_spec L W per d hr edge hedge hfe
                    have heL0 : edge.edgeLength ≠ 0 := by
                      intro h
                      rw [h] at hhi
                      linarith
                    rw [left_endpoint_eq edge.startX edge.endX edge.edgeLength
                      (d - edge.edgeStartDist) _ hXL heL0]
                    exact hgap0
                  · exact walkAux_front_clear L W per ranges hr fuel _ _ p hmem hfront
              · simp only [if_neg hfe] at hp
                split at hp
                · exact walkAux_front_clear L W per ranges hr fuel _ _ p hp hfront
                · rcases List.mem_cons.1 hp with rfl | hmem
                  · dsimp only at hfront
                    exact absurd hfront hfe
                  · exact walkAux_front_clear L W per ranges hr fuel _ _ p hmem hfront

/-- Lifting `walkAux_front_clear` to whole configurations: every front-edge
placement's left endpoint avoids every reserved stair/gate range. -/
theorem computeRailingPlacements_front_clear (config : MezzanineConfig)
    (p : Placement) (hp : p ∈ computeRailingPlacements config)
    (hfront : p.edge = EdgeId.front) :
    ∀ mn mx : ℚ, (mn, mx) ∈ configRanges config →
      ¬(mn ≤ p.posX - p.len / 2 ∧ p.posX - p.len / 2 ≤ mx) := by
  intro mn mx hmem
  simp only [computeRailingPlacements] at hp
  rw [List.mem_flatMap] at hp
  obtain ⟨railing, hrail, hpw⟩ := hp
  simp only [railingsPlacements] at hpw
  split at hpw
  · exact absurd hpw (List.not_mem_nil p)
  · have hclear := walkAux_front_clear (config.length / 1000) (config.width / 1000)
      _ _ (hasVinkelStair config.accessories) maxIterations 0 _ p hpw hfront
    rw [findGap_none] at hclear
    simp only [configRanges] at hmem
    exact hclear mn mx hmem

/-! ## Mutation-level invariant helpers -/

theorem add_railing_invariant (cfg : MezzanineConfig) (nid : String)
    (cfg' : MezzanineConfig)
    (h : addAccessory cfg AccessoryType.railings nid = some cfg') :
    calculateTotalRailingLength cfg'.accessories ≤
      calculateAvailablePerimeter cfg' := by
  simp only [addAccessory] at h
  split at h
  · cases h
  · rename_i hrej
    rw [if_neg (by decide)] at h
    injection h with h
    subst h
    have hle : calculateTotalRailingLength cfg.accessories + 10 ≤
        calculateAvailablePerimeter cfg := by
      simpa using hrej
    have htot : calculateTotalRailingLength
        (cfg.accessories ++ [newAccessory AccessoryType.railings nid]) =
        calculateTotalRailingLength cfg.accessories + 10 := by
      unfold calculateTotalRailingLength
      rw [List.filter_append]
      simp [newAccessory, isRailings, railTotal, jsOr]
    have hst : (cfg.accessories ++ [newAccessory AccessoryType.railings nid]).filter
        isStairs = cfg.accessories.filter isStairs := by
      rw [List.filter_append]
      simp [newAccessory, isStairs]
    have hpg : (cfg.accessories ++ [newAccessory AccessoryType.railings nid]).filter
        isPalletGate = cfg.accessories.filter isPalletGate := by
      rw [List.filter_append]
      simp [newAccessory, isPalletGate]
    rw [avail_congr cfg _ hst hpg]
    simp only at htot ⊢
    rw [htot]
    linarith

theorem update_railing_invariant (cfg : MezzanineConfig) (i : String)
    (u : AccessoryUpdates) (cfg' : MezzanineConfig)
    (hnd : (cfg.accessories.map Accessory.id).Nodup)
    (hid : ∀ a ∈ cfg.accessories, a.id = i → isRailings a = true)
    (h : updateAccessory cfg i u = some cfg') :
    calculateTotalRailingLength cfg'.accessories ≤
      calculateAvailablePerimeter cfg' := by
  simp only [updateAccessory] at h
  cases hfind : cfg.accessories.find? (fun a => a.id = i) with
  | none => rw [hfind] at h; cases h
  | some acc =>
    rw [hfind] at h
    dsimp only at h
    have hmem : acc ∈ cfg.accessories := List.mem_of_find?_eq_some hfind
    have hacci : acc.id = i := by
      have h2 := List.find?_some hfind
      exact of_decide_eq_true h2
    have hrac : isRailings acc = true := hid acc hmem hacci
    have hnst : isStairs acc = false := railings_not_stairs acc hrac
    have hnpg : isPalletGate acc = false := railings_not_palletGate acc hrac
    rw [hnst] at h
    simp only [Bool.false_and, Bool.false_eq_true, if_false] at h
    rw [hrac] at h
    simp only [Bool.true_and] at h
    split at h
    · cases h
    · rename_i hgt
      rw [decide_eq_true_eq] at hgt
      push_neg at hgt
      rw [hnpg] at h
      simp only [Bool.false_or, Bool.false_and, Bool.false_eq_true, if_false] at h
      injection h with h
      subst h
      have htot := rs_map_update (u := u) hrac hacci hnd hmem
      have hrt := railTotal_applyUpdates acc u
      have havail := avail_congr cfg
        (cfg.accessories.map (fun x => if x.id = i then applyUpdates x u else x))
        (filterp_map_update railings_not_stairs hrac hacci hnd hmem)
        (filterp_map_update railings_not_palletGate hrac hacci hnd hmem)
      simp only at htot havail ⊢
      rw [havail, htot, hrt]
      exact hgt

theorem autoAdjust_overshoot_bound (cfg : MezzanineConfig)
    (hnd : (cfg.accessories.map Accessory.id).Nodup)
    (hg : ∀ a ∈ cfg.accessories, isRailings a = true →
      1 ≤ a.quantity ∧ 1 ≤ jsOr a.length 0) :
    calculateTotalRailingLength (autoAdjustRailingsForPerimeter cfg) <
      calculateAvailablePerimeter cfg + 1 := by
  rcases autoAdjust_main cfg hnd hg with hle | ⟨_, _, _, _, _, _, hbd⟩
  · linarith
  · exact hbd

/-! ## Claim theorems -/

/-- C1 (amended): for a configuration whose stair accessories are exactly one
Vinkel (corner) stair of quantity 1, the available perimeter equals the full
perimeter `2(l+w)/1000 + 5.8` minus the corner stair's own occupancy of
2.4 m and minus the pallet-gate occupancy, clamped at 0 — there is no
rounding, and the stair and gate occupancy IS subtracted. -/
theorem C1_available_perimeter_vinkel (cfg : MezzanineConfig) (s : Accessory)
    (hs : cfg.accessories.filter isStairs = [s])
    (hv : optVinkel s.stairType = true) (hq : s.quantity = 1) :
    calculateAvailablePerimeter cfg =
      max 0 (2 * (cfg.length / 1000 + cfg.width / 1000) + 17/5 -
        calculatePalletGatesSpace cfg.accessories) := by
  have hvk : hasVinkelStair cfg.accessories = true := by
    rw [hasVinkel_eq_filter, hs]
    simp [hv]
  have hss : calculateStairsSpace cfg.accessories = 12/5 := by
    unfold calculateStairsSpace
    rw [hs]
    simp [stairSpace, hv, hq, REPOS_DEPTH]
    norm_num
  unfold calculateAvailablePerimeter calculatePerimeter
  rw [if_pos hvk, hss]
  congr 1
  unfold REPOS_DEPTH REPOS_LENGTH
  ring

/-- Witness: the amended C1 statement evaluated on the 9.4 m × 4 m
single-Vinkel configuration. -/
theorem C1_available_perimeter_vinkel_witness :
    calculateAvailablePerimeter vinkelCfg =
      max 0 (2 * (vinkelCfg.length / 1000 + vinkelCfg.width / 1000) + 17/5 -
        calculatePalletGatesSpace vinkelCfg.accessories) :=
  C1_available_perimeter_vinkel vinkelCfg vinkelStair (by decide) (by decide)
    (by decide)

/-- C1 counterexample: on the single-Vinkel 9.4 m × 4 m configuration the
available perimeter is 30.2 m, not the claimed
`⌊2(l+w)/1000 + 5.8⌋ = ⌊32.6⌋ = 32` m. -/
theorem C1_counterexample :
    vinkelCfg.accessories.filter isStairs = [vinkelStair] ∧
    optVinkel vinkelStair.stairType = true ∧ vinkelStair.quantity = 1 ∧
    calculateAvailablePerimeter vinkelCfg = 151/5 ∧
    ((Int.floor (2 * (vinkelCfg.length / 1000 + vinkelCfg.width / 1000) +
      29/5) : ℤ) : ℚ) = 32 ∧
    (151/5 : ℚ) ≠ 32 := by
  refine ⟨by decide, by decide, by decide, by with_unfolding_all rfl, ?_, by norm_num⟩
  have hv : 2 * (vinkelCfg.length / 1000 + vinkelCfg.width / 1000) + 29/5 =
      (163 : ℚ)/5 := by
    with_unfolding_all rfl
  rw [hv]
  norm_num [Int.floor_eq_iff]

/-- C2 (amended): the exact railing-length invariant holds after a successful
railing `addAccessory` and after a successful `updateAccessory` addressed at
a railing; for every other successful mutation the auto-fit resolver only
guarantees the weaker bound `total < available + 1` (the 1 m-floor clamp can
overshoot by strictly less than 1 m). -/
theorem C2_mutation_railing_invariant :
    (∀ cfg nid cfg', addAccessory cfg AccessoryType.railings nid = some cfg' →
      calculateTotalRailingLength cfg'.accessories ≤
        calculateAvailablePerimeter cfg') ∧
    (∀ cfg i u cfg', (cfg.accessories.map Accessory.id).Nodup →
      (∀ a ∈ cfg.accessories, a.id = i → isRailings a = true) →
      updateAccessory cfg i u = some cfg' →
      calculateTotalRailingLength cfg'.accessories ≤
        calculateAvailablePerimeter cfg') ∧
    (∀ cfg : MezzanineConfig, (cfg.accessories.map Accessory.id).Nodup →
      (∀ a ∈ cfg.accessories, isRailings a = true →
        1 ≤ a.quantity ∧ 1 ≤ jsOr a.length 0) →
      calculateTotalRailingLength (autoAdjustRailingsForPerimeter cfg) <
        calculateAvailablePerimeter cfg + 1) :=
  ⟨add_railing_invariant, update_railing_invariant, autoAdjust_overshoot_bound⟩

/-- Witness: the three C2 conjuncts evaluated on concrete mutations. -/
theorem C2_mutation_railing_invariant_witness :
    calculateTotalRailingLength addedCfg.accessories ≤
      calculateAvailablePerimeter addedCfg ∧
    calculateTotalRailingLength updatedCfg.accessories ≤
      calculateAvailablePerimeter updatedCfg ∧
    calculateTotalRailingLength (autoAdjustRailingsForPerimeter rail40Cfg) <
      calculateAvailablePerimeter rail40Cfg + 1 :=
  ⟨C2_mutation_railing_invariant.1 emptyCfg "r2" addedCfg
      (by with_unfolding_all rfl),
   C2_mutation_railing_invariant.2.1 oneRailCfg "r" ⟨none, some 12, none, none⟩
      updatedCfg (by decide) (by decide) (by with_unfolding_all rfl),
   C2_mutation_railing_invariant.2.2 rail40Cfg (by decide) (by decide)⟩

/-- C2 counterexample: on a 10 m × 5 m platform holding one 2000 mm pallet
gate and 28 m of railing (exactly the available perimeter), widening the gate
to 3000 mm is a successful `updateAccessory` mutation, yet afterwards the
total railing length 28 exceeds the new available perimeter 27. -/
theorem C2_counterexample :
    updateAccessory gateRailCfg "g" ⟨none, none, none, some PalletGateWidth.w3000⟩
        = some wideGateRailCfg ∧
    calculateAvailablePerimeter wideGateRailCfg = 27 ∧
    calculateTotalRailingLength wideGateRailCfg.accessories = 28 := by
  refine ⟨by with_unfolding_all rfl, by with_unfolding_all rfl,
    by with_unfolding_all rfl⟩

/-- C3: the pricing module's corner-stair test never matches the
application's corner stairs.  On the single-Vinkel configuration a corner
stair is present (`hasVinkelStair` is true), yet `calculateSquareMeters`
returns the bare rectangle area 37.6 m², not 37.6 + 4.2: the pricing code
looks for the substring `'Corner stairs'`, which no `'Vinkel …'` stair-type
value contains. -/
theorem C3_corner_area_ignores_vinkel :
    hasVinkelStair vinkelCfg.accessories = true ∧
    calculateSquareMeters vinkelCfg.length vinkelCfg.width vinkelCfg.accessories
      = 188/5 ∧
    vinkelCfg.length * vinkelCfg.width / 1000000 = 188/5 ∧
    (188/5 : ℚ) + REPOS_AREA ≠ 188/5 := by
  refine ⟨by decide, by with_unfolding_all rfl, by with_unfolding_all rfl, ?_⟩
  unfold REPOS_AREA REPOS_LENGTH REPOS_DEPTH
  norm_num
/-- C4: the auto-fit reduction strategy on its three paths, on concrete
configurations.  (i) The spec's worked example: one 40 m railing entry on a
platform with 26.8 m available is shrunk in place to 26 m (floor-to-metre).
(ii) With a second, most recently added 5 m railing, that railing is removed
whole first (backward walk) and the older entry is then shrunk to 26 m.
(iii) When the per-unit floor of 1 m would be violated, the quantity is
reduced instead (4 × 10 m on 2 m available becomes 1 × 2 m). -/
theorem C4_autofit_reduction_examples :
    calculateAvailablePerimeter rail40Cfg = 134/5 ∧
    autoAdjustRailingsForPerimeter rail40Cfg =
      [{ id := "r", type := AccessoryType.railings, quantity := 1,
           stairType := none, length := some 26, width := none }] ∧
    autoAdjustRailingsForPerimeter twoRailsCfg =
      [{ id := "r1", type := AccessoryType.railings, quantity := 1,
           stairType := none, length := some 26, width := none }] ∧
    calculateAvailablePerimeter fallbackCfg = 2 ∧
    autoAdjustRailingsForPerimeter fallbackCfg =
      [{ id := "g", type := AccessoryType.palletGate, quantity := 2,
           stairType := none, length := none, width := some PalletGateWidth.w3000 },
       { id := "r", type := AccessoryType.railings, quantity := 1,
           stairType := none, length := some 2, width := none }] :=
  ⟨by with_unfolding_all rfl, by with_unfolding_all rfl,
   by with_unfolding_all rfl, by with_unfolding_all rfl,
   by with_unfolding_all rfl⟩

/-- C5 (amended): every placement the perimeter walker emits on the front
edge has its LEFT endpoint `posX − len/2` outside every reserved stair and
pallet-gate X-range (closed bounds) — the walker checks only the chunk's
start position, so the chunk body may still overlap a range. -/
theorem C5_front_left_endpoint_clear (config : MezzanineConfig)
    (p : Placement) (hp : p ∈ computeRailingPlacements config)
    (hfront : p.edge = EdgeId.front) :
    ∀ mn mx : ℚ, (mn, mx) ∈ configRanges config →
      ¬(mn ≤ p.posX - p.len / 2 ∧ p.posX - p.len / 2 ≤ mx) :=
  computeRailingPlacements_front_clear config p hp hfront

/-- Witness: the amended C5 statement on a concrete emitted placement and a
concrete reserved range of `walkerCfg`. -/
theorem C5_front_left_endpoint_clear_witness :
    ¬((-1 : ℚ) ≤ (-11/10 : ℚ) - (6/5 : ℚ) / 2 ∧
      (-11/10 : ℚ) - (6/5 : ℚ) / 2 ≤ 1) :=
  C5_front_left_endpoint_clear walkerCfg
    { edge := EdgeId.front, posX := -11/10, posZ := -2, len := 6/5 }
    (by with_unfolding_all decide) (by decide) (-1) 1
    (by with_unfolding_all decide)

/-- C5 counterexample: on `walkerCfg` the walker emits the front-edge chunk
centred at x = −1.1 of length 1.2, whose X-interval [−1.7, −0.5] overlaps
the pallet gate's reserved range (−1, 1). -/
theorem C5_counterexample :
    ({ edge := EdgeId.front, posX := -11/10, posZ := -2, len := 6/5 } :
        Placement) ∈ computeRailingPlacements walkerCfg ∧
    ((-1 : ℚ), (1 : ℚ)) ∈ configRanges walkerCfg ∧
    ¬((-11/10 : ℚ) + (6/5 : ℚ) / 2 ≤ -1 ∨
      (1 : ℚ) ≤ -11/10 - (6/5 : ℚ) / 2) := by
  refine ⟨by with_unfolding_all decide, by with_unfolding_all decide, ?_⟩
  norm_num

/-- C6 (amended): an update that would give a second accessory a Vinkel
(corner) stair type while another stair accessory already has one is
rejected (`updateAccessory` returns no new configuration). -/
theorem C6_second_vinkel_rejected (cfg : MezzanineConfig) (i : String)
    (u : AccessoryUpdates) (acc : Accessory) (s : String)
    (hfind : cfg.accessories.find? (fun a => a.id = i) = some acc)
    (hst : isStairs acc = true) (hu : u.stairType = some s)
    (hvs : hasSubstr s "Vinkel" = true)
    (hother : cfg.accessories.any
      (fun a => isStairs a && optVinkel a.stairType && !(a.id = i)) = true) :
    updateAccessory cfg i u = none := by
  simp only [updateAccessory]
  rw [hfind]
  dsimp only
  rw [hst, hu]
  simp [hvs, hother]

/-- Witness: updating the straight stair of `twoStairsCfg` to a Vinkel type
is rejected. -/
theorem C6_second_vinkel_rejected_witness :
    updateAccessory twoStairsCfg "s2" ⟨none, none, some "Vinkel 1.2m", none⟩ =
      none :=
  C6_second_vinkel_rejected twoStairsCfg "s2"
    ⟨none, none, some "Vinkel 1.2m", none⟩
    { id := "s2", type := AccessoryType.stairs, quantity := 1,
        stairType := some "Straight 1m" }
    "Vinkel 1.2m" (by decide) (by decide) rfl (by decide) (by decide)

/-- C6 counterexample: updating the existing corner stair's quantity away
from 1 is NOT rejected — `updateAccessory` accepts quantity 2 for the
Vinkel stair and emits the changed configuration. -/
theorem C6_counterexample :
    optVinkel vinkelStair.stairType = true ∧
    updateAccessory vinkelCfg "s" ⟨some 2, none, none, none⟩ =
      some { length := 9400, width := 4000, height := 3000, loadCapacity := 250,
             accessories := [{ id := "s", type := AccessoryType.stairs,
                                 quantity := 2, stairType := some "Vinkel 1.2m" }] } :=
  ⟨by decide, by with_unfolding_all rfl⟩

/-- C7: a direct `updateAccessory` edit addressed at a railing whose new
total (other railings' totals plus this railing's patched
quantity × length) exceeds the available perimeter is rejected: no
configuration is emitted, so the stored configuration is unchanged and no
auto-fit runs. -/
theorem C7_railing_overflow_edit_rejected (cfg : MezzanineConfig) (i : String)
    (u : AccessoryUpdates) (acc : Accessory)
    (hfind : cfg.accessories.find? (fun a => a.id = i) = some acc)
    (hrail : isRailings acc = true)
    (hgt : ((cfg.accessories.filter
        (fun a => isRailings a && !(a.id = i))).map railTotal).sum +
        ((u.quantity.getD acc.quantity : ℕ) : ℚ) *
          u.length.getD (jsOr acc.length 0) >
      calculateAvailablePerimeter cfg) :
    updateAccessory cfg i u = none := by
  simp only [updateAccessory]
  rw [hfind]
  dsimp only
  rw [railings_not_stairs acc hrail]
  simp only [Bool.false_and, Bool.false_eq_true, if_false]
  rw [hrail]
  simp [hgt]

/-- Witness: lengthening the 10 m railing of `oneRailCfg` to 100 m (available
perimeter 30 m) is rejected. -/
theorem C7_railing_overflow_edit_rejected_witness :
    updateAccessory oneRailCfg "r" ⟨none, some 100, none, none⟩ = none :=
  C7_railing_overflow_edit_rejected oneRailCfg "r" ⟨none, some 100, none, none⟩
    { id := "r", type := AccessoryType.railings, quantity := 1,
        length := some 10 }
    (by decide) (by decide) (by with_unfolding_all decide)
/-- C8: the auto-fit resolver is idempotent (under the §3 data-model
invariants: pairwise-distinct accessory ids, and every railing with
quantity ≥ 1 and per-unit length ≥ 1): running it on a configuration whose
accessory list is its own output returns that output unchanged. -/
theorem C8_autofit_idempotent (cfg : MezzanineConfig)
    (hnd : (cfg.accessories.map Accessory.id).Nodup)
    (hg : ∀ a ∈ cfg.accessories, isRailings a = true →
      1 ≤ a.quantity ∧ 1 ≤ jsOr a.length 0) :
    autoAdjustRailingsForPerimeter
        { cfg with accessories := autoAdjustRailingsForPerimeter cfg } =
      autoAdjustRailingsForPerimeter cfg :=
  autoAdjust_idem cfg hnd hg

/-- Witness: idempotence on the worked 40 m-railing example, where the first
run actually shrinks the railing. -/
theorem C8_autofit_idempotent_witness :
    autoAdjustRailingsForPerimeter
        { rail40Cfg with accessories := autoAdjustRailingsForPerimeter rail40Cfg } =
      autoAdjustRailingsForPerimeter rail40Cfg :=
  C8_autofit_idempotent rail40Cfg (by decide) (by decide)

/-- C9: when every input railing has quantity ≥ 1 and per-unit length ≥ 1,
every railing in the auto-fit resolver's output still has quantity ≥ 1 and
per-unit length ≥ 1. -/
theorem C9_autofit_output_well_formed (cfg : MezzanineConfig)
    (hg : ∀ a ∈ cfg.accessories, isRailings a = true →
      1 ≤ a.quantity ∧ 1 ≤ jsOr a.length 0) :
    ∀ a ∈ autoAdjustRailingsForPerimeter cfg, isRailings a = true →
      1 ≤ a.quantity ∧ 1 ≤ jsOr a.length 0 :=
  autoAdjust_good cfg hg

/-- Witness: the quantity-fallback output railing of `fallbackCfg`
(quantity 1, length 2 m) satisfies both floors. -/
theorem C9_autofit_output_well_formed_witness :
    1 ≤ ({ id := "r", type := AccessoryType.railings, quantity := 1,
             stairType := none, length := some 2, width := none } :
           Accessory).quantity ∧
    (1 : ℚ) ≤ jsOr ({ id := "r", type := AccessoryType.railings, quantity := 1,
                        stairType := none, length := some 2, width := none } :
                      Accessory).length 0 :=
  C9_autofit_output_well_formed fallbackCfg (by decide)
    { id := "r", type := AccessoryType.railings, quantity := 1,
        stairType := none, length := some 2, width := none }
    (by with_unfolding_all decide) (by decide)

/-- C10: the auto-fit resolver only touches railings.  For ids pairwise
distinct: (i) the non-railing accessories of the output are exactly those of
the input, in order and unchanged; (ii) the output is a sublist (order
preserved) of the input with at most one railing entry replaced in place by
a shrunk railing of the same id — every other accessory is either kept
unchanged or removed whole. -/
theorem C10_autofit_frame (cfg : MezzanineConfig)
    (hnd : (cfg.accessories.map Accessory.id).Nodup) :
    (autoAdjustRailingsForPerimeter cfg).filter (fun a => !(isRailings a)) =
      cfg.accessories.filter (fun a => !(isRailings a)) ∧
    ∃ acc1, List.Sublist (autoAdjustRailingsForPerimeter cfg) acc1 ∧
      (acc1 = cfg.accessories ∨ ∃ r x, r ∈ cfg.accessories ∧
        isRailings r = true ∧ isRailings x = true ∧ x.id = r.id ∧
        acc1 = setById r.id x cfg.accessories) :=
  ⟨autoAdjust_filter_disjoint railings_not_notRailings cfg hnd,
   autoAdjust_frame cfg hnd⟩

/-- Witness: the frame property on `fallbackCfg` (pallet gate untouched,
railing shrunk in place). -/
theorem C10_autofit_frame_witness :
    (autoAdjustRailingsForPerimeter fallbackCfg).filter
        (fun a => !(isRailings a)) =
      fallbackCfg.accessories.filter (fun a => !(isRailings a)) ∧
    ∃ acc1, List.Sublist (autoAdjustRailingsForPerimeter fallbackCfg) acc1 ∧
      (acc1 = fallbackCfg.accessories ∨ ∃ r x, r ∈ fallbackCfg.accessories ∧
        isRailings r = true ∧ isRailings x = true ∧ x.id = r.id ∧
        acc1 = setById r.id x fallbackCfg.accessories) :=
  C10_autofit_frame fallbackCfg (by decide)
